import Mathlib

/-!
# Desired-LRP getters of the runtime schema (`bbs/lrp_bbs/desired_getters.go`)

A shallow embedding of `DesiredLRPs`, `DesiredLRPsByDomain` and
`DesiredLRPByProcessGuid`, followed by a model of the convergence passes
`ConvergeLRPs` and `ConvergeTasks`, which the test files exercise.

* Go's `error` results are `Option GoError` (`none` is `nil`).
* Go's multiple results are tuples or records; a slice is a `List` (the nil
  slice and the empty slice are both `[]`).
* The store is read-only here: it is a pair of functions, and every getter
  also reports the list of store calls it made.
* The work pool runs closures concurrently. Each closure touches the shared
  state exactly once, inside one mutex, so a run of the pool is the closures
  taking effect one after the other in some order: the order is a parameter.
-/

namespace LrpBbs

/-- A non-nil Go error value. The sentinels are compared by identity in the
source; the other values carry the text their `Error()` method returns. -/
inductive GoError where
  /-- the sentinel `storeadapter.ErrorKeyNotFound` -/
  | ErrorKeyNotFound
  /-- the sentinel `bbserrors.ErrNoDomain` -/
  | ErrNoDomain
  /-- the sentinel `bbserrors.ErrNoProcessGuid` -/
  | ErrNoProcessGuid
  /-- a value made by `fmt.Errorf`, with its text -/
  | Errorf (text : String)
  /-- the value returned by `models.FromJSON`, with its text -/
  | decode (text : String)
  /-- any other error value (store adapter, error conversion, work pool) -/
  | other (text : String)
  deriving DecidableEq, Repr

/-- Modelled from the spec: `models.DesiredLRP` is declared outside the files
at hand; the spec's data model lists `process_guid`, `domain`, `instances`,
`stack` and an opaque `actions` payload. -/
structure DesiredLRP where
  ProcessGuid : String
  Domain : String
  Instances : Nat
  Stack : String
  Actions : List UInt8
  deriving DecidableEq, Repr

/-- The zero value `models.DesiredLRP{}`. -/
def DesiredLRP.zero : DesiredLRP :=
  { ProcessGuid := "", Domain := "", Instances := 0, Stack := "", Actions := [] }

/-- The record `storeadapter.StoreNode` of the store adapter. -/
inductive StoreNode where
  | mk (Key : String) (Value : List UInt8) (Dir : Bool) (TTL : Nat)
      (ChildNodes : List StoreNode) (Index : Nat)

/-- Field `Key` of a store node. -/
def StoreNode.Key : StoreNode → String
  | .mk k _ _ _ _ _ => k

/-- Field `Value` of a store node. -/
def StoreNode.Value : StoreNode → List UInt8
  | .mk _ v _ _ _ _ => v

/-- Field `ChildNodes` of a store node. -/
def StoreNode.ChildNodes : StoreNode → List StoreNode
  | .mk _ _ _ _ c _ => c

/-- Field `Index` of a store node. -/
def StoreNode.Index : StoreNode → Nat
  | .mk _ _ _ _ _ i => i

/-- A leaf node holding a payload under a key. -/
def StoreNode.leaf (key : String) (value : List UInt8) : StoreNode :=
  .mk key value false 0 [] 0

/-- A directory node with the given children. -/
def StoreNode.dir (key : String) (children : List StoreNode) : StoreNode :=
  .mk key [] true 0 children 0

/-- The two read operations of `bbs.store` the getters use, each giving the
pair of results of the Go method. -/
structure Store where
  ListRecursively : String → StoreNode × Option GoError
  Get : String → StoreNode × Option GoError

/-- A call made on the store. -/
inductive StoreCall where
  | ListRecursively (key : String)
  | Get (key : String)
  deriving DecidableEq, Repr

/-- The helpers of packages `models` and `shared` the getters call.
`FromJSON payload` is `models.FromJSON(payload, &lrp)` on a zero-valued `lrp`:
the record as the call leaves it, and the text of the error it returns, if any.
`ConvertStoreError` is `shared.ConvertStoreError`, the error normalisation of
the store facade, applied to a non-nil store error. -/
structure Env where
  FromJSON : List UInt8 → DesiredLRP × Option String
  ConvertStoreError : GoError → GoError

/-- Modelled from the spec: `shared.DesiredLRPSchemaRoot` is declared outside
the files at hand; the persisted layout puts desired LRPs under `/v1/desired`. -/
def DesiredLRPSchemaRoot : String := "/v1/desired"

/-- Modelled from the spec: `shared.DesiredLRPSchemaPath` is declared outside
the files at hand; the persisted layout is `/v1/desired/<process_guid>`. The
getters call it with a non-empty process guid only. -/
def DesiredLRPSchemaPath (lrp : DesiredLRP) : String :=
  DesiredLRPSchemaRoot ++ "/" ++ lrp.ProcessGuid

/-- The constant `maxDesiredGetterWorkPoolSize`. -/
def maxDesiredGetterWorkPoolSize : Nat := 50

/-- The variables the work closures share: `lrps` and `workErr`. -/
structure Shared where
  lrps : List DesiredLRP
  workErr : Option GoError
  deriving DecidableEq, Repr

/-- The text `fmt.Sprintf("cannot parse lrp JSON for key %s: %s", key, text)`. -/
def parseErrorText (key text : String) : String :=
  "cannot parse lrp JSON for key " ++ key ++ ": " ++ text

/-- The closure `DesiredLRPs` appends to `works` for a child node, as its
effect on the shared variables. -/
def desiredWork (env : Env) (node : StoreNode) (s : Shared) : Shared :=
  match env.FromJSON node.Value with
  | (_, some text) => { s with workErr := some (.Errorf (parseErrorText node.Key text)) }
  | (lrp, none) => { s with lrps := s.lrps ++ [lrp] }

/-- The closure `DesiredLRPsByDomain` appends to `works` for a child node. -/
def domainWork (env : Env) (domain : String) (node : StoreNode) (s : Shared) : Shared :=
  match env.FromJSON node.Value with
  | (_, some text) => { s with workErr := some (.Errorf (parseErrorText node.Key text)) }
  | (lrp, none) =>
    if lrp.Domain = domain then { s with lrps := s.lrps ++ [lrp] } else s

/-- One use of the work pool (`workpool.NewThrottler`, `Start`, then
`wg.Wait()`): the error of `NewThrottler`, if any, and the order in which the
closures, numbered in the order of `works`, take effect. -/
structure Throttler where
  err : Option GoError
  order : List Nat

/-- The shared variables once the closures have taken effect in the order of
the pool. -/
def Throttler.run (t : Throttler) (works : List (Shared → Shared)) (s : Shared) : Shared :=
  t.order.foldl (fun acc i => match works[i]? with
    | some work => work acc
    | none => acc) s

/-- The pool is created and runs each of `n` closures exactly once. -/
def Throttler.RunsAll (t : Throttler) (n : Nat) : Prop :=
  t.err = none ∧ t.order.Perm (List.range n)

instance (t : Throttler) (n : Nat) : Decidable (t.RunsAll n) := by
  unfold Throttler.RunsAll; infer_instance

/-- The results of a getter and the store calls it made. -/
structure Reply (α : Type) where
  value : α
  err : Option GoError
  calls : List StoreCall

/-- The method `LRPBBS.DesiredLRPs`. -/
def DesiredLRPs (env : Env) (store : Store) (pool : Throttler) : Reply (List DesiredLRP) :=
  let calls := [StoreCall.ListRecursively DesiredLRPSchemaRoot]
  match store.ListRecursively DesiredLRPSchemaRoot with
  | (root, err) =>
    if err = some GoError.ErrorKeyNotFound then ⟨[], none, calls⟩
    else match err with
      | some e => ⟨[], some (env.ConvertStoreError e), calls⟩
      | none =>
        if root.ChildNodes.length = 0 then ⟨[], none, calls⟩
        else
          let works := root.ChildNodes.map (desiredWork env)
          match pool.err with
          | some e => ⟨[], some e, calls⟩
          | none =>
            let final := pool.run works ⟨[], none⟩
            match final.workErr with
            | some e => ⟨[], some e, calls⟩
            | none => ⟨final.lrps, none, calls⟩

/-- The method `LRPBBS.DesiredLRPsByDomain`. -/
def DesiredLRPsByDomain (env : Env) (store : Store) (pool : Throttler) (domain : String) :
    Reply (List DesiredLRP) :=
  if domain.utf8ByteSize = 0 then ⟨[], some GoError.ErrNoDomain, []⟩
  else
    let calls := [StoreCall.ListRecursively DesiredLRPSchemaRoot]
    match store.ListRecursively DesiredLRPSchemaRoot with
    | (root, err) =>
      if err = some GoError.ErrorKeyNotFound then ⟨[], none, calls⟩
      else match err with
        | some e => ⟨[], some (env.ConvertStoreError e), calls⟩
        | none =>
          if root.ChildNodes.length = 0 then ⟨[], none, calls⟩
          else
            let works := root.ChildNodes.map (domainWork env domain)
            match pool.err with
            | some e => ⟨[], some e, calls⟩
            | none =>
              let final := pool.run works ⟨[], none⟩
              match final.workErr with
              | some e => ⟨[], some e, calls⟩
              | none => ⟨final.lrps, none, calls⟩

/-- The method `LRPBBS.desiredLRPByProcessGuidWithIndex`: the record, the
index and the error, with the store calls made. -/
def desiredLRPByProcessGuidWithIndex (env : Env) (store : Store) (processGuid : String) :
    Reply (DesiredLRP × Nat) :=
  if processGuid.utf8ByteSize = 0 then ⟨(DesiredLRP.zero, 0), some GoError.ErrNoProcessGuid, []⟩
  else
    let key := DesiredLRPSchemaPath { DesiredLRP.zero with ProcessGuid := processGuid }
    match store.Get key with
    | (_, some e) => ⟨(DesiredLRP.zero, 0), some (env.ConvertStoreError e), [StoreCall.Get key]⟩
    | (node, none) =>
      match env.FromJSON node.Value with
      | (lrp, err) => ⟨(lrp, node.Index), err.map GoError.decode, [StoreCall.Get key]⟩

/-- The method `LRPBBS.DesiredLRPByProcessGuid`. -/
def DesiredLRPByProcessGuid (env : Env) (store : Store) (processGuid : String) :
    Reply DesiredLRP :=
  match desiredLRPByProcessGuidWithIndex env store processGuid with
  | ⟨(lrp, _), err, calls⟩ => ⟨lrp, err, calls⟩

/-! ## What a run of the pool records -/

/-- The error a closure records for a child node whose payload does not
decode, `none` when it decodes. -/
def failure (env : Env) (node : StoreNode) : Option GoError :=
  match env.FromJSON node.Value with
  | (_, some text) => some (.Errorf (parseErrorText node.Key text))
  | (_, none) => none

/-- The failure recorded by the last failing node of a sequence. -/
def lastFailure (env : Env) (seq : List StoreNode) : Option GoError :=
  seq.reverse.findSome? (failure env)

/-- The failure recorded by the first failing node of a sequence. -/
def firstFailure (env : Env) (seq : List StoreNode) : Option GoError :=
  seq.findSome? (failure env)

/-- The record a closure appends for a child node: the decoded record when the
payload decodes and the record passes `keep`. -/
def kept (env : Env) (keep : DesiredLRP → Bool) (node : StoreNode) : Option DesiredLRP :=
  match env.FromJSON node.Value with
  | (_, some _) => none
  | (lrp, none) => if keep lrp then some lrp else none

/-- The child nodes in the order in which their closures take effect. -/
def scheduled (pool : Throttler) (nodes : List StoreNode) : List StoreNode :=
  pool.order.filterMap (fun i => nodes[i]?)

/-- A closure that decodes a node, records a failure, and appends the record
when it passes `keep`: the common shape of `desiredWork` and `domainWork`. -/
def workOf (env : Env) (keep : DesiredLRP → Bool) (node : StoreNode) (s : Shared) : Shared :=
  match env.FromJSON node.Value with
  | (_, some text) => { s with workErr := some (.Errorf (parseErrorText node.Key text)) }
  | (lrp, none) => if keep lrp then { s with lrps := s.lrps ++ [lrp] } else s

/-- The pool that runs `n` closures in the order of `works`. -/
def inOrder (n : Nat) : Throttler := ⟨none, List.range n⟩

/-! ## Sample inputs -/

/-- A small codec for the examples: two bytes `[d, n]` decode to a record of
domain `tests` (`d = 0`) or `prod` with `n` instances; nothing else decodes. -/
def sampleFromJSON : List UInt8 → DesiredLRP × Option String
  | [] => (DesiredLRP.zero, some "unexpected end of JSON input")
  | [d, n] =>
    ({ ProcessGuid := "pg", Domain := if d = 0 then "tests" else "prod",
       Instances := n.toNat, Stack := "pancake", Actions := [] }, none)
  | _ => (DesiredLRP.zero, some "invalid character")

/-- An error conversion for the examples: key-not-found becomes a resource
error, any other error is kept. -/
def sampleConvert : GoError → GoError
  | .ErrorKeyNotFound => .other "the requested resource could not be found"
  | e => e

/-- The helpers used in the examples. -/
def sampleEnv : Env := ⟨sampleFromJSON, sampleConvert⟩

/-- A store whose desired root lists the given children and whose `Get` finds
a child by key. -/
def listingStore (children : List StoreNode) : Store where
  ListRecursively := fun key =>
    if key = DesiredLRPSchemaRoot then (StoreNode.dir key children, none)
    else (StoreNode.leaf "" [], some .ErrorKeyNotFound)
  Get := fun key =>
    match children.find? (fun node => node.Key = key) with
    | some node => (node, none)
    | none => (StoreNode.leaf "" [], some .ErrorKeyNotFound)

/-- A store that holds nothing. -/
def emptyStore : Store where
  ListRecursively := fun _ => (StoreNode.leaf "" [], some .ErrorKeyNotFound)
  Get := fun _ => (StoreNode.leaf "" [], some .ErrorKeyNotFound)

/-- Three children that decode: two of domain `tests`, one of domain `prod`. -/
def goodChildren : List StoreNode :=
  [StoreNode.leaf "/v1/desired/a" [0, 1], StoreNode.leaf "/v1/desired/b" [1, 2],
   StoreNode.leaf "/v1/desired/c" [0, 3]]

/-- Three children of which the first and the last do not decode. -/
def badChildren : List StoreNode :=
  [StoreNode.leaf "/v1/desired/x" [], StoreNode.leaf "/v1/desired/b" [1, 2],
   StoreNode.leaf "/v1/desired/y" [7]]

/-! ## Convergence

`ConvergeLRPs` and `ConvergeTasks` are exercised by the test files at hand, but
their code is not among them: both are modelled from section 4.10 of the spec,
as one pass over a store that no other writer touches meanwhile. -/

/-- Modelled from the spec: the code of the store facade is not at hand; an
entry of the key-value store is a key with its payload and its per-key version
(the index that `Get` returns and `CompareAndSwap` takes). -/
structure Entry where
  key : String
  value : List UInt8
  index : Nat
  deriving DecidableEq, Repr

/-- Modelled from the spec: the facade's `CompareAndSwap(key, prev_version,
value)`, whose code is not at hand. It succeeds when the key is held at that
version, and then writes the value at a later version; on a version conflict it
gives `none`. -/
def compareAndSwap (entries : List Entry) (key : String) (prev : Nat) (value : List UInt8) :
    Option (List Entry) :=
  if entries.any (fun e => decide (e.key = key ∧ e.index = prev)) then
    some (entries.map (fun e =>
      if e.key = key then { e with value := value, index := e.index + 1 } else e))
  else none

/-- Modelled from the spec: the facade's `Delete`, whose code is not at hand. -/
def deleteKey (entries : List Entry) (key : String) : List Entry :=
  entries.filter (fun e => decide (e.key ≠ key))

/-- Whether a subtree holds an entry under the key. -/
def hasKey (entries : List Entry) (key : String) : Bool :=
  entries.any (fun e => decide (e.key = key))

/-- Modelled from the spec: `models.ActualLRP` is declared outside the files at
hand; the data model lists `process_guid`, `instance_guid`, `executor_id` and
`index`. -/
structure ActualLRP where
  ProcessGuid : String
  InstanceGuid : String
  ExecutorID : String
  Index : Nat
  deriving DecidableEq, Repr

/-- Modelled from the spec: `models.StopLRPInstance` is declared outside the
files at hand; it is keyed by process guid, instance guid and index. -/
structure StopLRPInstance where
  ProcessGuid : String
  InstanceGuid : String
  Index : Nat
  deriving DecidableEq, Repr

/-- Modelled from the spec: `models.DesiredLRPChange` is declared outside the
files at hand; either side may be absent. -/
structure DesiredLRPChange where
  Before : Option DesiredLRP
  After : Option DesiredLRP
  deriving DecidableEq, Repr

/-- Modelled from the spec: the counters of the metrics surface that
`ConvergeLRPs` bumps (`converge-lrps`, `convergence-delete-lrp`,
`convergence-compare-and-swap-lrp`, `convergence-stop-lrp`); the sink is not at
hand, and the duration timer, being wall-clock time, is left out. -/
structure Metrics where
  convergeLRPs : Nat
  deleteLRP : Nat
  compareAndSwapLRP : Nat
  stopLRP : Nat
  deriving DecidableEq, Repr

/-- Modelled from the spec: what `ConvergeLRPs` reads, whose code is not at
hand: the entries of the `desired/` subtree, the records of the `actual/`
subtree and the ids under `executor/`. -/
structure LRPStore where
  desired : List Entry
  actual : List ActualLRP
  executors : List String

/-- Modelled from the spec: what a pass of `ConvergeLRPs` leaves, whose code is
not at hand: the store, the entries it kicked, the changes a subscriber of
`WatchForDesiredLRPChanges` receives, the stop records and the counters. -/
structure LRPOutcome where
  store : LRPStore
  kicked : List Entry
  changes : List DesiredLRPChange
  stops : List StopLRPInstance
  metrics : Metrics

/-- Whether the payload of an entry decodes. -/
def decodes (env : Env) (e : Entry) : Bool :=
  (env.FromJSON e.value).2.isNone

/-- Modelled from the spec: one side of a change as the watcher of section 4.9
gives it, whose code is not at hand: the payload decoded, absent when there is
no payload or it does not decode. -/
def decodeSide (env : Env) : Option (List UInt8) → Option DesiredLRP
  | none => none
  | some payload =>
    match env.FromJSON payload with
    | (lrp, none) => some lrp
    | (_, some _) => none

/-- Modelled from the spec: the change the watcher of section 4.9 emits for a
raw event with the given payloads before and after; its code is not at hand. -/
def toChange (env : Env) (before after : Option (List UInt8)) : DesiredLRPChange :=
  ⟨decodeSide env before, decodeSide env after⟩

/-- Modelled from the spec: the surviving actuals of a process guid, that is
the actuals of step 3 of `ConvergeLRPs` (code not at hand) bound to a live
executor. -/
def survivors (store : LRPStore) (processGuid : String) : List ActualLRP :=
  (store.actual.filter (fun a => decide (a.ExecutorID ∈ store.executors))).filter
    (fun a => decide (a.ProcessGuid = processGuid))

/-- Modelled from the spec: the indices that the surviving actuals of a process
guid occupy, each listed as often as it is occupied; the code that reads them
is not at hand. -/
def survivingIndices (store : LRPStore) (processGuid : String) : List Nat :=
  (survivors store processGuid).map (fun a => a.Index)

/-- Modelled from the spec: the drift test of step 4 of `ConvergeLRPs`, whose
code is not at hand. A desired LRP needs a kick when the count of its healthy
actuals differs from `instances`, or the multiset of their indices is not
`{0, ..., instances-1}`, or one of them is orphaned. -/
def needsKick (lrp : DesiredLRP) (actuals : List ActualLRP) (live : List String) : Bool :=
  decide (actuals.length ≠ lrp.Instances) ||
    decide (¬ (actuals.map (fun a => a.Index)).Perm (List.range lrp.Instances)) ||
    actuals.any (fun a => decide (a.ExecutorID ∉ live))

/-- Modelled from the spec: one kick of step 4 of `ConvergeLRPs`, whose code is
not at hand: a compare-and-swap of the unchanged payload at the version seen
during the load; on a version conflict the entry is skipped. The state is the
desired subtree and the entries kicked so far. -/
def kickStep (acc : List Entry × List Entry) (e : Entry) : List Entry × List Entry :=
  match compareAndSwap acc.1 e.key e.index e.value with
  | some desired => (desired, acc.2 ++ [e])
  | none => acc

/-- Modelled from the spec: the desired entries that step 4 of `ConvergeLRPs`
(code not at hand) finds drifting: those that decode and need a kick against
their surviving actuals. -/
def drifting (env : Env) (store : LRPStore) : List Entry :=
  store.desired.filter (fun e => decodes env e &&
    needsKick (env.FromJSON e.value).1
      (survivors store (env.FromJSON e.value).1.ProcessGuid) store.executors)

/-- Modelled from the spec: `ConvergeLRPs`, whose code is not at hand, after
section 4.10: load; delete the desired entries that do not decode; delete the
actuals of dead executors; kick the drifting desired LRPs; emit a stop for each
surviving actual without a desired LRP; bump the counters. -/
def ConvergeLRPs (env : Env) (store : LRPStore) (metrics : Metrics) : LRPOutcome :=
  let malformed := store.desired.filter (fun e => !decodes env e)
  let pruned := store.desired.filter (fun e => decide (e.key ∉ malformed.map Entry.key))
  let actual := store.actual.filter (fun a => decide (a.ExecutorID ∈ store.executors))
  let kicks := (drifting env store).foldl kickStep (pruned, [])
  let known := (store.desired.filter (decodes env)).map
    (fun e => (env.FromJSON e.value).1.ProcessGuid)
  let stops := (actual.filter (fun a => decide (a.ProcessGuid ∉ known))).map
    (fun a => StopLRPInstance.mk a.ProcessGuid a.InstanceGuid a.Index)
  { store := { desired := kicks.1, actual := actual, executors := store.executors }
    kicked := kicks.2
    changes := malformed.map (fun e => toChange env (some e.value) none) ++
      kicks.2.map (fun e => toChange env (some e.value) (some e.value))
    stops := stops
    metrics :=
      { convergeLRPs := metrics.convergeLRPs + 1
        deleteLRP := metrics.deleteLRP + malformed.length
        compareAndSwapLRP := metrics.compareAndSwapLRP + kicks.2.length
        stopLRP := metrics.stopLRP + stops.length } }

/-- Modelled from the spec: the four state subtrees of the tasks, read by
`ConvergeTasks` whose code is not at hand; an entry of a subtree is keyed by
the task guid. The spec lays the subtrees out as `/v1/task/<state>/<guid>`, the
tests at hand read them at `/v1/run_once/<state>/<guid>`; the prefix plays no
part here. -/
structure TaskStore where
  pending : List Entry
  claimed : List Entry
  running : List Entry
  completed : List Entry

/-- Modelled from the spec: what a pass of `ConvergeTasks` leaves, whose code
is not at hand: the store and the entries whose kick a subscriber of
`WatchForDesiredTask` and of `WatchForCompletedTask` receives. -/
structure TaskOutcome where
  store : TaskStore
  desiredEvents : List Entry
  completedEvents : List Entry

/-- Modelled from the spec: the kick of a key by `ConvergeTasks`, whose code is
not at hand: an identity compare-and-swap at the version read; it gives the
subtree and the entry kicked, if any. -/
def kick (entries : List Entry) (key : String) : List Entry × List Entry :=
  match entries.find? (fun e => decide (e.key = key)) with
  | none => (entries, [])
  | some e =>
    match compareAndSwap entries e.key e.index e.value with
    | some swapped => (swapped, [e])
    | none => (entries, [])

/-- Modelled from the spec: what `ConvergeTasks` (code not at hand) does for
one task guid. With `pending` and one of the other keys, `pending` is left
alone and `completed`, when there, is kicked; with `pending` alone, it is
kicked; without `pending`, the `claimed`, `running` and `completed` entries of
the guid are deleted. -/
def convergeTask (out : TaskOutcome) (guid : String) : TaskOutcome :=
  if hasKey out.store.pending guid then
    if hasKey out.store.claimed guid || hasKey out.store.running guid ||
        hasKey out.store.completed guid then
      if hasKey out.store.completed guid then
        { store := { out.store with completed := (kick out.store.completed guid).1 }
          desiredEvents := out.desiredEvents
          completedEvents := out.completedEvents ++ (kick out.store.completed guid).2 }
      else out
    else
      { store := { out.store with pending := (kick out.store.pending guid).1 }
        desiredEvents := out.desiredEvents ++ (kick out.store.pending guid).2
        completedEvents := out.completedEvents }
  else
    { store :=
        { pending := out.store.pending
          claimed := deleteKey out.store.claimed guid
          running := deleteKey out.store.running guid
          completed := deleteKey out.store.completed guid }
      desiredEvents := out.desiredEvents
      completedEvents := out.completedEvents }

/-- Modelled from the spec: the task guids `ConvergeTasks` (code not at hand)
observes across the state subtrees, each once. -/
def observedGuids (store : TaskStore) : List String :=
  ((store.pending ++ store.claimed ++ store.running ++ store.completed).map Entry.key).dedup

/-- Modelled from the spec: `ConvergeTasks` (`ConvergeRunOnce` in the tests),
whose code is not at hand: the rule of `convergeTask` for each task guid
observed across the state subtrees. -/
def ConvergeTasks (store : TaskStore) : TaskOutcome :=
  (observedGuids store).foldl convergeTask ⟨store, [], []⟩

/-! ## Sample stores for convergence -/

/-- The desired LRP of the convergence tests, with the given instances; the
sample codec writes it as `[0, n]`. -/
def sampleDesired (n : UInt8) : Entry := ⟨"/v1/desired/pg", [0, n], 4⟩

/-- Two actuals of process `pg` at the indices 0 and 1, on the executor `ex`. -/
def twoActuals : List ActualLRP :=
  [⟨"pg", "instance-guid-1", "ex", 0⟩, ⟨"pg", "instance-guid-2", "ex", 1⟩]

/-- A store with one desired LRP of `n` instances, a malformed desired entry,
and the given actuals, with the executor `ex` present. -/
def sampleLRPStore (n : UInt8) (actuals : List ActualLRP) : LRPStore :=
  { desired := [⟨"/v1/desired/bogus", [7], 2⟩, sampleDesired n]
    actual := actuals
    executors := ["ex"] }

/-- Counters at zero. -/
def noMetrics : Metrics := ⟨0, 0, 0, 0⟩

/-- A task store where `some-guid` is claimed, running and completed without
being pending, and `other-guid` is pending alone. -/
def sampleTaskStore : TaskStore :=
  { pending := [⟨"other-guid", [1], 3⟩]
    claimed := [⟨"some-guid", [2], 5⟩]
    running := [⟨"some-guid", [2], 6⟩]
    completed := [⟨"some-guid", [2], 7⟩] }

/-! ## Lemmas -/

theorem utf8ByteSize_eq_zero_iff (s : String) : s.utf8ByteSize = 0 ↔ s = "" := by
  constructor
  · intro h
    cases s with
    | mk cs =>
      cases cs with
      | nil => rfl
      | cons c rest =>
        exfalso
        have hc := Char.utf8Size_pos c
        simp [String.utf8ByteSize, String.utf8ByteSize.go] at h
        omega
  · intro h; subst h; rfl

theorem filterMap_range_getElem? {α : Type} (l : List α) :
    (List.range l.length).filterMap (fun i => l[i]?) = l := by
  induction l using List.reverseRecOn with
  | nil => rfl
  | append_singleton xs x ih =>
    rw [List.length_append, List.length_singleton, List.range_succ, List.filterMap_append]
    have h1 : (List.range xs.length).filterMap (fun i => (xs ++ [x])[i]?) =
        (List.range xs.length).filterMap (fun i => xs[i]?) := by
      apply List.filterMap_congr
      intro i hi
      rw [List.mem_range] at hi
      rw [List.getElem?_append_left hi]
    rw [h1, ih]
    simp

theorem scheduled_perm (pool : Throttler) (nodes : List StoreNode)
    (h : pool.order.Perm (List.range nodes.length)) : (scheduled pool nodes).Perm nodes := by
  have h2 := h.filterMap (fun i => nodes[i]?)
  rw [filterMap_range_getElem?] at h2
  exact h2

theorem scheduled_inOrder (nodes : List StoreNode) :
    scheduled (inOrder nodes.length) nodes = nodes :=
  filterMap_range_getElem? nodes

theorem desiredWork_eq (env : Env) : desiredWork env = workOf env (fun _ => true) := by
  funext node s
  simp only [desiredWork, workOf]
  split <;> simp

theorem domainWork_eq (env : Env) (domain : String) :
    domainWork env domain = workOf env (fun lrp => decide (lrp.Domain = domain)) := by
  funext node s
  simp only [domainWork, workOf]
  split <;> simp

theorem run_map (pool : Throttler) (nodes : List StoreNode) (f : StoreNode → Shared → Shared)
    (s : Shared) :
    pool.run (nodes.map f) s = (scheduled pool nodes).foldl (fun acc node => f node acc) s := by
  unfold Throttler.run scheduled
  generalize pool.order = order
  induction order generalizing s with
  | nil => rfl
  | cons i rest ih =>
    simp only [List.foldl_cons, List.getElem?_map, List.filterMap_cons]
    cases hi : nodes[i]? with
    | none => simpa using ih s
    | some node => simpa using ih (f node s)

theorem lastFailure_nil (env : Env) : lastFailure env [] = none := rfl

theorem lastFailure_cons (env : Env) (node : StoreNode) (rest : List StoreNode) :
    lastFailure env (node :: rest) =
      match lastFailure env rest with
      | some e => some e
      | none => failure env node := by
  unfold lastFailure
  rw [List.reverse_cons, List.findSome?_append]
  cases List.findSome? (failure env) rest.reverse with
  | none => cases h : failure env node <;> simp [List.findSome?_cons, h]
  | some e => simp

theorem foldl_workOf (env : Env) (keep : DesiredLRP → Bool) (seq : List StoreNode) (s : Shared) :
    seq.foldl (fun acc node => workOf env keep node acc) s =
      ⟨s.lrps ++ seq.filterMap (kept env keep),
        match lastFailure env seq with
        | some e => some e
        | none => s.workErr⟩ := by
  induction seq generalizing s with
  | nil => simp [lastFailure_nil]
  | cons node rest ih =>
    rw [List.foldl_cons, ih, lastFailure_cons]
    simp only [List.filterMap_cons, kept, failure, workOf]
    cases hd : env.FromJSON node.Value with
    | mk lrp err =>
      cases err with
      | some text => cases lastFailure env rest <;> simp
      | none =>
        by_cases hk : keep lrp = true
        · cases lastFailure env rest <;> simp [hk]
        · cases lastFailure env rest <;> simp [hk]

theorem failure_eq_none_iff (env : Env) (node : StoreNode) :
    failure env node = none ↔ (env.FromJSON node.Value).2 = none := by
  unfold failure
  cases env.FromJSON node.Value with
  | mk lrp err => cases err <;> simp

theorem failure_eq_some_iff (env : Env) (node : StoreNode) (e : GoError) :
    failure env node = some e ↔
      ∃ text, (env.FromJSON node.Value).2 = some text ∧
        e = .Errorf (parseErrorText node.Key text) := by
  unfold failure
  cases env.FromJSON node.Value with
  | mk lrp err =>
    cases err with
    | none => simp
    | some text =>
      simp only [Option.some.injEq, exists_eq_left']
      exact eq_comm

theorem lastFailure_eq_none_iff (env : Env) (seq : List StoreNode) :
    lastFailure env seq = none ↔ ∀ node ∈ seq, failure env node = none := by
  unfold lastFailure
  rw [List.findSome?_eq_none_iff]
  simp only [List.mem_reverse]

theorem lastFailure_mem (env : Env) (seq : List StoreNode) (e : GoError)
    (h : lastFailure env seq = some e) : ∃ node ∈ seq, failure env node = some e := by
  unfold lastFailure at h
  obtain ⟨node, hmem, hf⟩ := List.exists_of_findSome?_eq_some h
  exact ⟨node, List.mem_reverse.mp hmem, hf⟩

theorem filterMap_kept_of_decoded (env : Env) (keep : DesiredLRP → Bool) (seq : List StoreNode)
    (h : ∀ node ∈ seq, (env.FromJSON node.Value).2 = none) :
    seq.filterMap (kept env keep) =
      (seq.map (fun node => (env.FromJSON node.Value).1)).filter keep := by
  induction seq with
  | nil => rfl
  | cons node rest ih =>
    have hn := h node (List.mem_cons_self _ _)
    have hr := ih (fun n hn => h n (List.mem_cons_of_mem _ hn))
    simp only [List.filterMap_cons, List.map_cons, List.filter_cons, kept]
    cases hd : env.FromJSON node.Value with
    | mk lrp err =>
      rw [hd] at hn
      simp only at hn
      subst hn
      by_cases hk : keep lrp = true
      · simp [hk, hr, kept]
      · simp [hk, hr, kept]

theorem DesiredLRPs_run (env : Env) (store : Store) (pool : Throttler) (root : StoreNode)
    (hlist : store.ListRecursively DesiredLRPSchemaRoot = (root, none))
    (hne : root.ChildNodes ≠ []) (herr : pool.err = none) :
    DesiredLRPs env store pool =
      match lastFailure env (scheduled pool root.ChildNodes) with
      | some e => ⟨[], some e, [StoreCall.ListRecursively DesiredLRPSchemaRoot]⟩
      | none =>
        ⟨(scheduled pool root.ChildNodes).filterMap (kept env (fun _ => true)), none,
          [StoreCall.ListRecursively DesiredLRPSchemaRoot]⟩ := by
  have hlen : root.ChildNodes.length ≠ 0 := fun h => hne (List.length_eq_zero.mp h)
  simp only [DesiredLRPs, hlist, herr, hlen, reduceCtorEq, if_false, desiredWork_eq, run_map,
    foldl_workOf]
  cases lastFailure env (scheduled pool root.ChildNodes) <;> simp

theorem DesiredLRPsByDomain_run (env : Env) (store : Store) (pool : Throttler) (root : StoreNode)
    (domain : String) (hd : domain ≠ "")
    (hlist : store.ListRecursively DesiredLRPSchemaRoot = (root, none))
    (hne : root.ChildNodes ≠ []) (herr : pool.err = none) :
    DesiredLRPsByDomain env store pool domain =
      match lastFailure env (scheduled pool root.ChildNodes) with
      | some e => ⟨[], some e, [StoreCall.ListRecursively DesiredLRPSchemaRoot]⟩
      | none =>
        ⟨(scheduled pool root.ChildNodes).filterMap
            (kept env (fun lrp => decide (lrp.Domain = domain))), none,
          [StoreCall.ListRecursively DesiredLRPSchemaRoot]⟩ := by
  have hlen : root.ChildNodes.length ≠ 0 := fun h => hne (List.length_eq_zero.mp h)
  have hsize : domain.utf8ByteSize ≠ 0 := fun h => hd ((utf8ByteSize_eq_zero_iff domain).mp h)
  simp only [DesiredLRPsByDomain, hlist, herr, hlen, hsize, reduceCtorEq, if_false,
    domainWork_eq, run_map, foldl_workOf]
  cases lastFailure env (scheduled pool root.ChildNodes) <;> simp

theorem DesiredLRPs_no_children (env : Env) (store : Store) (pool : Throttler) (root : StoreNode)
    (hlist : store.ListRecursively DesiredLRPSchemaRoot = (root, none))
    (hnil : root.ChildNodes = []) :
    DesiredLRPs env store pool = ⟨[], none, [StoreCall.ListRecursively DesiredLRPSchemaRoot]⟩ := by
  simp [DesiredLRPs, hlist, hnil]

theorem DesiredLRPsByDomain_no_children (env : Env) (store : Store) (pool : Throttler)
    (root : StoreNode) (domain : String) (hd : domain ≠ "")
    (hlist : store.ListRecursively DesiredLRPSchemaRoot = (root, none))
    (hnil : root.ChildNodes = []) :
    DesiredLRPsByDomain env store pool domain =
      ⟨[], none, [StoreCall.ListRecursively DesiredLRPSchemaRoot]⟩ := by
  have hsize : domain.utf8ByteSize ≠ 0 := fun h => hd ((utf8ByteSize_eq_zero_iff domain).mp h)
  simp [DesiredLRPsByDomain, hlist, hnil, hsize]

/-! ## The claims -/

/-- C1: when the listing of the desired root succeeds and every child node
decodes, `DesiredLRPs` returns a nil error and a slice that is a permutation of
the decoded values of the children, one record per child, so that its length is
the number of children; this holds for every order in which the pool runs the
closures. -/
theorem DesiredLRPs_complete (env : Env) (store : Store) (pool : Throttler) (root : StoreNode)
    (hlist : store.ListRecursively DesiredLRPSchemaRoot = (root, none))
    (hpool : pool.RunsAll root.ChildNodes.length)
    (hdec : ∀ node ∈ root.ChildNodes, (env.FromJSON node.Value).2 = none) :
    (DesiredLRPs env store pool).err = none ∧
      (DesiredLRPs env store pool).value.Perm
        (root.ChildNodes.map (fun node => (env.FromJSON node.Value).1)) ∧
      (DesiredLRPs env store pool).value.length = root.ChildNodes.length := by
  by_cases hnil : root.ChildNodes = []
  · rw [DesiredLRPs_no_children env store pool root hlist hnil, hnil]
    simp
  · have hperm := scheduled_perm pool root.ChildNodes hpool.2
    have hsched : ∀ node ∈ scheduled pool root.ChildNodes, (env.FromJSON node.Value).2 = none :=
      fun node hn => hdec node (hperm.subset hn)
    have hlast : lastFailure env (scheduled pool root.ChildNodes) = none :=
      (lastFailure_eq_none_iff env _).mpr
        (fun node hn => (failure_eq_none_iff env node).mpr (hsched node hn))
    rw [DesiredLRPs_run env store pool root hlist hnil hpool.1, hlast]
    simp only [filterMap_kept_of_decoded env _ _ hsched, List.filter_true]
    have hp := hperm.map (fun node => (env.FromJSON node.Value).1)
    exact ⟨trivial, hp, by rw [hp.length_eq, List.length_map]⟩

/-- C1 at three children that decode, run in the order 2, 0, 1. -/
theorem DesiredLRPs_complete_witness :
    (listingStore goodChildren).ListRecursively DesiredLRPSchemaRoot =
        (StoreNode.dir DesiredLRPSchemaRoot goodChildren, none) ∧
      (Throttler.mk none [2, 0, 1]).RunsAll 3 ∧
      (∀ node ∈ goodChildren, (sampleEnv.FromJSON node.Value).2 = none) ∧
      (DesiredLRPs sampleEnv (listingStore goodChildren) ⟨none, [2, 0, 1]⟩).err = none ∧
      (DesiredLRPs sampleEnv (listingStore goodChildren) ⟨none, [2, 0, 1]⟩).value.Perm
        (goodChildren.map (fun node => (sampleEnv.FromJSON node.Value).1)) ∧
      (DesiredLRPs sampleEnv (listingStore goodChildren) ⟨none, [2, 0, 1]⟩).value.length = 3 :=
  ⟨rfl, by decide, by decide,
    DesiredLRPs_complete sampleEnv (listingStore goodChildren) ⟨none, [2, 0, 1]⟩
      (StoreNode.dir DesiredLRPSchemaRoot goodChildren) rfl (by decide) (by decide)⟩

theorem lastFailure_scheduled_ne_none (env : Env) (pool : Throttler) (nodes : List StoreNode)
    (hperm : pool.order.Perm (List.range nodes.length))
    (hbad : ∃ node ∈ nodes, (env.FromJSON node.Value).2 ≠ none) :
    ∃ e, lastFailure env (scheduled pool nodes) = some e := by
  obtain ⟨node, hmem, hfail⟩ := hbad
  cases h : lastFailure env (scheduled pool nodes) with
  | some e => exact ⟨e, rfl⟩
  | none =>
    exfalso
    have hall := (lastFailure_eq_none_iff env _).mp h node
      ((scheduled_perm pool nodes hperm).symm.subset hmem)
    exact hfail ((failure_eq_none_iff env node).mp hall)

/-- C2: when the listing succeeds and at least one child node fails to decode,
`DesiredLRPs` returns the empty slice and a non-nil error, whatever the other
children hold and in whatever order the pool runs the closures. -/
theorem DesiredLRPs_no_partial_result (env : Env) (store : Store) (pool : Throttler)
    (root : StoreNode)
    (hlist : store.ListRecursively DesiredLRPSchemaRoot = (root, none))
    (hpool : pool.RunsAll root.ChildNodes.length)
    (hbad : ∃ node ∈ root.ChildNodes, (env.FromJSON node.Value).2 ≠ none) :
    (DesiredLRPs env store pool).value = [] ∧ (DesiredLRPs env store pool).err ≠ none := by
  have hne : root.ChildNodes ≠ [] := by
    obtain ⟨node, hmem, _⟩ := hbad
    exact List.ne_nil_of_mem hmem
  obtain ⟨e, he⟩ := lastFailure_scheduled_ne_none env pool root.ChildNodes hpool.2 hbad
  rw [DesiredLRPs_run env store pool root hlist hne hpool.1, he]
  simp

/-- C2 at three children of which two fail to decode, run in the order 1, 2, 0. -/
theorem DesiredLRPs_no_partial_result_witness :
    (listingStore badChildren).ListRecursively DesiredLRPSchemaRoot =
        (StoreNode.dir DesiredLRPSchemaRoot badChildren, none) ∧
      (Throttler.mk none [1, 2, 0]).RunsAll 3 ∧
      (∃ node ∈ badChildren, (sampleEnv.FromJSON node.Value).2 ≠ none) ∧
      (DesiredLRPs sampleEnv (listingStore badChildren) ⟨none, [1, 2, 0]⟩).value = [] ∧
      (DesiredLRPs sampleEnv (listingStore badChildren) ⟨none, [1, 2, 0]⟩).err ≠ none :=
  ⟨rfl, by decide, by decide,
    DesiredLRPs_no_partial_result sampleEnv (listingStore badChildren) ⟨none, [1, 2, 0]⟩
      (StoreNode.dir DesiredLRPSchemaRoot badChildren) rfl (by decide) (by decide)⟩

/-- C3: when `ListRecursively` on the desired root reports the key-not-found
error, `DesiredLRPs` and, for every non-empty domain, `DesiredLRPsByDomain`
return the empty slice and a nil error. -/
theorem missing_root_is_empty (env : Env) (store : Store) (pool : Throttler)
    (hmissing : (store.ListRecursively DesiredLRPSchemaRoot).2 = some GoError.ErrorKeyNotFound) :
    ((DesiredLRPs env store pool).value = [] ∧ (DesiredLRPs env store pool).err = none) ∧
      ∀ domain : String, domain ≠ "" →
        (DesiredLRPsByDomain env store pool domain).value = [] ∧
          (DesiredLRPsByDomain env store pool domain).err = none := by
  constructor
  · unfold DesiredLRPs
    cases hl : store.ListRecursively DesiredLRPSchemaRoot with
    | mk root err =>
      rw [hl] at hmissing
      simp only at hmissing
      subst hmissing
      simp
  · intro domain hd
    have hsize : domain.utf8ByteSize ≠ 0 := fun h => hd ((utf8ByteSize_eq_zero_iff domain).mp h)
    unfold DesiredLRPsByDomain
    cases hl : store.ListRecursively DesiredLRPSchemaRoot with
    | mk root err =>
      rw [hl] at hmissing
      simp only at hmissing
      subst hmissing
      simp [hsize]

/-- C3 at a store that holds nothing, with the domain `tests`. -/
theorem missing_root_is_empty_witness :
    (emptyStore.ListRecursively DesiredLRPSchemaRoot).2 = some GoError.ErrorKeyNotFound ∧
      (DesiredLRPs sampleEnv emptyStore (inOrder 0)).value = [] ∧
      (DesiredLRPs sampleEnv emptyStore (inOrder 0)).err = none ∧
      (DesiredLRPsByDomain sampleEnv emptyStore (inOrder 0) "tests").value = [] ∧
      (DesiredLRPsByDomain sampleEnv emptyStore (inOrder 0) "tests").err = none :=
  have h := missing_root_is_empty sampleEnv emptyStore (inOrder 0) rfl
  ⟨rfl, h.1.1, h.1.2, (h.2 "tests" (by decide)).1, (h.2 "tests" (by decide)).2⟩

/-- C4: for a non-empty domain, when the listing succeeds and every child node
decodes, `DesiredLRPsByDomain` returns a nil error and a slice that is a
permutation of the decoded children whose `Domain` is the domain asked for:
every returned record has that domain and no child of that domain is left out. -/
theorem DesiredLRPsByDomain_complete (env : Env) (store : Store) (pool : Throttler)
    (root : StoreNode) (domain : String) (hd : domain ≠ "")
    (hlist : store.ListRecursively DesiredLRPSchemaRoot = (root, none))
    (hpool : pool.RunsAll root.ChildNodes.length)
    (hdec : ∀ node ∈ root.ChildNodes, (env.FromJSON node.Value).2 = none) :
    (DesiredLRPsByDomain env store pool domain).err = none ∧
      (DesiredLRPsByDomain env store pool domain).value.Perm
        ((root.ChildNodes.map (fun node => (env.FromJSON node.Value).1)).filter
          (fun lrp => decide (lrp.Domain = domain))) ∧
      (∀ lrp ∈ (DesiredLRPsByDomain env store pool domain).value, lrp.Domain = domain) ∧
      (∀ node ∈ root.ChildNodes, (env.FromJSON node.Value).1.Domain = domain →
        (env.FromJSON node.Value).1 ∈ (DesiredLRPsByDomain env store pool domain).value) := by
  have key : (DesiredLRPsByDomain env store pool domain).err = none ∧
      (DesiredLRPsByDomain env store pool domain).value.Perm
        ((root.ChildNodes.map (fun node => (env.FromJSON node.Value).1)).filter
          (fun lrp => decide (lrp.Domain = domain))) := by
    by_cases hnil : root.ChildNodes = []
    · rw [DesiredLRPsByDomain_no_children env store pool root domain hd hlist hnil, hnil]
      simp
    · have hperm := scheduled_perm pool root.ChildNodes hpool.2
      have hsched : ∀ node ∈ scheduled pool root.ChildNodes,
          (env.FromJSON node.Value).2 = none :=
        fun node hn => hdec node (hperm.subset hn)
      have hlast : lastFailure env (scheduled pool root.ChildNodes) = none :=
        (lastFailure_eq_none_iff env _).mpr
          (fun node hn => (failure_eq_none_iff env node).mpr (hsched node hn))
      rw [DesiredLRPsByDomain_run env store pool root domain hd hlist hnil hpool.1, hlast]
      simp only [filterMap_kept_of_decoded env _ _ hsched]
      exact ⟨trivial, (hperm.map (fun node => (env.FromJSON node.Value).1)).filter _⟩
  refine ⟨key.1, key.2, ?_, ?_⟩
  · intro lrp hmem
    have h := key.2.subset hmem
    simpa using (List.mem_filter.mp h).2
  · intro node hmem hdom
    apply key.2.symm.subset
    exact List.mem_filter.mpr ⟨List.mem_map_of_mem _ hmem, by simpa using hdom⟩

/-- C4 at three children that decode, two of them of the domain `tests`, run in
the order 2, 1, 0. -/
theorem DesiredLRPsByDomain_complete_witness :
    "tests" ≠ "" ∧
      (listingStore goodChildren).ListRecursively DesiredLRPSchemaRoot =
        (StoreNode.dir DesiredLRPSchemaRoot goodChildren, none) ∧
      (Throttler.mk none [2, 1, 0]).RunsAll 3 ∧
      (∀ node ∈ goodChildren, (sampleEnv.FromJSON node.Value).2 = none) ∧
      (DesiredLRPsByDomain sampleEnv (listingStore goodChildren) ⟨none, [2, 1, 0]⟩ "tests").err
        = none ∧
      (DesiredLRPsByDomain sampleEnv (listingStore goodChildren) ⟨none, [2, 1, 0]⟩
          "tests").value.Perm
        ((goodChildren.map (fun node => (sampleEnv.FromJSON node.Value).1)).filter
          (fun lrp => decide (lrp.Domain = "tests"))) :=
  have h := DesiredLRPsByDomain_complete sampleEnv (listingStore goodChildren)
    ⟨none, [2, 1, 0]⟩ (StoreNode.dir DesiredLRPSchemaRoot goodChildren) "tests" (by decide) rfl
    (by decide) (by decide)
  ⟨by decide, rfl, by decide, by decide, h.1, h.2.1⟩

theorem lastFailure_is_Errorf (env : Env) (seq : List StoreNode) (e : GoError)
    (h : lastFailure env seq = some e) :
    ∃ node ∈ seq, ∃ text, (env.FromJSON node.Value).2 = some text ∧
      e = .Errorf (parseErrorText node.Key text) := by
  obtain ⟨node, hmem, hf⟩ := lastFailure_mem env seq e h
  exact ⟨node, hmem, (failure_eq_some_iff env node e).mp hf⟩

/-- C5: with the empty domain `DesiredLRPsByDomain` returns `ErrNoDomain` and
no records without a call on the store, whatever the store holds; with a
non-empty domain the check lets the call through to the store, and an
`ErrNoDomain` can then only be what the error conversion or the pool hands
back. -/
theorem DesiredLRPsByDomain_domain_check (env : Env) (store : Store) (pool : Throttler) :
    ((DesiredLRPsByDomain env store pool "").value = [] ∧
      (DesiredLRPsByDomain env store pool "").err = some GoError.ErrNoDomain ∧
      (DesiredLRPsByDomain env store pool "").calls = []) ∧
    ∀ domain : String, domain ≠ "" →
      (DesiredLRPsByDomain env store pool domain).calls =
          [StoreCall.ListRecursively DesiredLRPSchemaRoot] ∧
        ((DesiredLRPsByDomain env store pool domain).err = some GoError.ErrNoDomain →
          (∃ e, (store.ListRecursively DesiredLRPSchemaRoot).2 = some e ∧
              env.ConvertStoreError e = GoError.ErrNoDomain) ∨
            pool.err = some GoError.ErrNoDomain) := by
  constructor
  · simp [DesiredLRPsByDomain, String.utf8ByteSize, String.utf8ByteSize.go]
  · intro domain hd
    have hsize : domain.utf8ByteSize ≠ 0 := fun h => hd ((utf8ByteSize_eq_zero_iff domain).mp h)
    cases hl : store.ListRecursively DesiredLRPSchemaRoot with
    | mk root err =>
      cases err with
      | some e =>
        by_cases hk : e = GoError.ErrorKeyNotFound
        · simp [DesiredLRPsByDomain, hl, hsize, hk]
        · simp only [DesiredLRPsByDomain, hl, hsize, hk, if_false, Option.some.injEq,
            exists_eq_left', true_and]
          exact Or.inl
      | none =>
        by_cases hnil : root.ChildNodes = []
        · rw [DesiredLRPsByDomain_no_children env store pool root domain hd hl hnil]
          simp
        · cases hp : pool.err with
          | some pe =>
            have hlen : root.ChildNodes.length ≠ 0 :=
              fun h => hnil (List.length_eq_zero.mp h)
            simp [DesiredLRPsByDomain, hl, hsize, hp, hlen]
          | none =>
            rw [DesiredLRPsByDomain_run env store pool root domain hd hl hnil hp]
            cases hf : lastFailure env (scheduled pool root.ChildNodes) with
            | none => simp
            | some e2 =>
              obtain ⟨node, _, text, _, he⟩ := lastFailure_is_Errorf env _ e2 hf
              subst he
              simp

/-- C5 at a store with three children: the empty domain is refused without a
call on the store, the domain `tests` goes through to the store. -/
theorem DesiredLRPsByDomain_domain_check_witness :
    (DesiredLRPsByDomain sampleEnv (listingStore goodChildren) (inOrder 3) "").err
        = some GoError.ErrNoDomain ∧
      (DesiredLRPsByDomain sampleEnv (listingStore goodChildren) (inOrder 3) "").calls = [] ∧
      "tests" ≠ "" ∧
      (DesiredLRPsByDomain sampleEnv (listingStore goodChildren) (inOrder 3) "tests").calls =
        [StoreCall.ListRecursively DesiredLRPSchemaRoot] :=
  have h := DesiredLRPsByDomain_domain_check sampleEnv (listingStore goodChildren) (inOrder 3)
  ⟨h.1.2.1, h.1.2.2, by decide, (h.2 "tests" (by decide)).1⟩

/-- C6: with the empty process guid `DesiredLRPByProcessGuid` returns
`ErrNoProcessGuid` and the zero-valued record without a call on the store,
whatever the store holds. -/
theorem DesiredLRPByProcessGuid_empty_guid (env : Env) (store : Store) :
    (DesiredLRPByProcessGuid env store "").value = DesiredLRP.zero ∧
      (DesiredLRPByProcessGuid env store "").err = some GoError.ErrNoProcessGuid ∧
      (DesiredLRPByProcessGuid env store "").calls = [] := by
  simp [DesiredLRPByProcessGuid, desiredLRPByProcessGuidWithIndex, String.utf8ByteSize,
    String.utf8ByteSize.go]

/-- C7: for a non-empty process guid, when `Get` on the desired path of the
guid fails with an error `e` (key-not-found included), `DesiredLRPByProcessGuid`
returns the zero-valued record and `ConvertStoreError e`: the failure is
returned as an error, never as a nil error with an empty record. -/
theorem DesiredLRPByProcessGuid_store_error (env : Env) (store : Store) (processGuid : String)
    (e : GoError) (hg : processGuid ≠ "")
    (hget : (store.Get (DesiredLRPSchemaPath
      { DesiredLRP.zero with ProcessGuid := processGuid })).2 = some e) :
    (DesiredLRPByProcessGuid env store processGuid).value = DesiredLRP.zero ∧
      (DesiredLRPByProcessGuid env store processGuid).err = some (env.ConvertStoreError e) ∧
      (DesiredLRPByProcessGuid env store processGuid).err ≠ none ∧
      (DesiredLRPByProcessGuid env store processGuid).calls = [StoreCall.Get
        (DesiredLRPSchemaPath { DesiredLRP.zero with ProcessGuid := processGuid })] := by
  have hsize : processGuid.utf8ByteSize ≠ 0 :=
    fun h => hg ((utf8ByteSize_eq_zero_iff processGuid).mp h)
  cases hs : store.Get (DesiredLRPSchemaPath
      { DesiredLRP.zero with ProcessGuid := processGuid }) with
  | mk node err =>
    rw [hs] at hget
    simp only at hget
    subst hget
    simp [DesiredLRPByProcessGuid, desiredLRPByProcessGuidWithIndex, hsize, hs]

/-- C7 at a store that holds nothing: the key-not-found error of `Get` comes
back converted, with the zero-valued record. -/
theorem DesiredLRPByProcessGuid_store_error_witness :
    "pg" ≠ "" ∧
      (emptyStore.Get (DesiredLRPSchemaPath { DesiredLRP.zero with ProcessGuid := "pg" })).2 =
        some GoError.ErrorKeyNotFound ∧
      (DesiredLRPByProcessGuid sampleEnv emptyStore "pg").value = DesiredLRP.zero ∧
      (DesiredLRPByProcessGuid sampleEnv emptyStore "pg").err =
        some (sampleEnv.ConvertStoreError GoError.ErrorKeyNotFound) :=
  have h := DesiredLRPByProcessGuid_store_error sampleEnv emptyStore "pg"
    GoError.ErrorKeyNotFound (by decide) rfl
  ⟨by decide, rfl, h.1, h.2.1⟩

theorem scheduled_nil (pool : Throttler) : scheduled pool [] = [] := by
  simp [scheduled]

theorem DesiredLRPs_err (env : Env) (store : Store) (pool : Throttler) (root : StoreNode)
    (hlist : store.ListRecursively DesiredLRPSchemaRoot = (root, none))
    (herr : pool.err = none) :
    (DesiredLRPs env store pool).err = lastFailure env (scheduled pool root.ChildNodes) := by
  by_cases hnil : root.ChildNodes = []
  · rw [DesiredLRPs_no_children env store pool root hlist hnil, hnil, scheduled_nil]
    rfl
  · rw [DesiredLRPs_run env store pool root hlist hnil herr]
    cases lastFailure env (scheduled pool root.ChildNodes) <;> rfl

theorem DesiredLRPsByDomain_err (env : Env) (store : Store) (pool : Throttler)
    (root : StoreNode) (domain : String) (hd : domain ≠ "")
    (hlist : store.ListRecursively DesiredLRPSchemaRoot = (root, none))
    (herr : pool.err = none) :
    (DesiredLRPsByDomain env store pool domain).err =
      lastFailure env (scheduled pool root.ChildNodes) := by
  by_cases hnil : root.ChildNodes = []
  · rw [DesiredLRPsByDomain_no_children env store pool root domain hd hlist hnil, hnil,
      scheduled_nil]
    rfl
  · rw [DesiredLRPsByDomain_run env store pool root domain hd hlist hnil herr]
    cases lastFailure env (scheduled pool root.ChildNodes) <;> rfl

theorem scheduled_of_range (pool : Throttler) (nodes : List StoreNode)
    (h : pool.order = List.range nodes.length) : scheduled pool nodes = nodes := by
  unfold scheduled
  rw [h]
  exact filterMap_range_getElem? nodes

/-- C8 as stated fails: with the closures run in child order over three
children of which the first (key `x`) and the last (key `y`) fail to decode,
both methods return the error recorded for `y`, not the one recorded for the
first failing child `x`. -/
theorem first_failure_is_replaced :
    (inOrder 3).order = List.range 3 ∧
      firstFailure sampleEnv badChildren = some (GoError.Errorf
        "cannot parse lrp JSON for key /v1/desired/x: unexpected end of JSON input") ∧
      (DesiredLRPs sampleEnv (listingStore badChildren) (inOrder 3)).err = some (GoError.Errorf
        "cannot parse lrp JSON for key /v1/desired/y: invalid character") ∧
      (DesiredLRPs sampleEnv (listingStore badChildren) (inOrder 3)).err ≠
        firstFailure sampleEnv badChildren ∧
      (DesiredLRPsByDomain sampleEnv (listingStore badChildren) (inOrder 3) "tests").err ≠
        firstFailure sampleEnv badChildren := by
  decide

/-- C8, amended: when the listing succeeds and the pool runs every closure,
the error returned by `DesiredLRPs` and by `DesiredLRPsByDomain` is the one
recorded for the last failing child in the order in which the closures take
effect, and so, with the closures taken in child order, for the last failing
child of the listing: a later failure replaces the one recorded before it. -/
theorem last_failure_is_returned (env : Env) (store : Store) (pool : Throttler)
    (root : StoreNode) (domain : String) (hd : domain ≠ "")
    (hlist : store.ListRecursively DesiredLRPSchemaRoot = (root, none))
    (hpool : pool.RunsAll root.ChildNodes.length) :
    (DesiredLRPs env store pool).err = lastFailure env (scheduled pool root.ChildNodes) ∧
      (DesiredLRPsByDomain env store pool domain).err =
        lastFailure env (scheduled pool root.ChildNodes) ∧
      (pool.order = List.range root.ChildNodes.length →
        (DesiredLRPs env store pool).err = lastFailure env root.ChildNodes ∧
          (DesiredLRPsByDomain env store pool domain).err = lastFailure env root.ChildNodes) := by
  have h1 := DesiredLRPs_err env store pool root hlist hpool.1
  have h2 := DesiredLRPsByDomain_err env store pool root domain hd hlist hpool.1
  refine ⟨h1, h2, fun horder => ?_⟩
  rw [scheduled_of_range pool root.ChildNodes horder] at h1 h2
  exact ⟨h1, h2⟩

/-- C8, amended, at three children of which the first and the last fail to
decode, run in child order: the error is the one of the last child. -/
theorem last_failure_is_returned_witness :
    "tests" ≠ "" ∧
      (listingStore badChildren).ListRecursively DesiredLRPSchemaRoot =
        (StoreNode.dir DesiredLRPSchemaRoot badChildren, none) ∧
      (inOrder 3).RunsAll 3 ∧
      (inOrder 3).order = List.range 3 ∧
      (DesiredLRPs sampleEnv (listingStore badChildren) (inOrder 3)).err =
        lastFailure sampleEnv badChildren ∧
      (DesiredLRPsByDomain sampleEnv (listingStore badChildren) (inOrder 3) "tests").err =
        lastFailure sampleEnv badChildren ∧
      lastFailure sampleEnv badChildren = some (GoError.Errorf
        "cannot parse lrp JSON for key /v1/desired/y: invalid character") :=
  have h := last_failure_is_returned sampleEnv (listingStore badChildren) (inOrder 3)
    (StoreNode.dir DesiredLRPSchemaRoot badChildren) "tests" (by decide) rfl (by decide)
  ⟨by decide, rfl, by decide, rfl, (h.2.2 rfl).1, (h.2.2 rfl).2, by decide⟩

theorem lastFailure_names_key (env : Env) (pool : Throttler) (nodes : List StoreNode)
    (e : GoError) (hperm : pool.order.Perm (List.range nodes.length))
    (hlast : lastFailure env (scheduled pool nodes) = some e) :
    ∃ node ∈ nodes, ∃ text, (env.FromJSON node.Value).2 = some text ∧
      e = GoError.Errorf ("cannot parse lrp JSON for key " ++ node.Key ++ ": " ++ text) := by
  obtain ⟨node, hmem, text, htext, he⟩ := lastFailure_is_Errorf env _ e hlast
  exact ⟨node, (scheduled_perm pool nodes hperm).subset hmem, text, htext, he⟩

/-- C9: when the listing succeeds and the pools run every closure, an error
returned by `DesiredLRPs` or by `DesiredLRPsByDomain` has the text
`cannot parse lrp JSON for key K: E`, where `K` is the key of a child node of
the listing whose payload fails to decode and `E` is the text of that node's
decode error; and as soon as one child fails to decode, each of the two
methods does return such an error. -/
theorem decode_failure_names_key (env : Env) (store : Store) (p1 p2 : Throttler)
    (root : StoreNode) (domain : String) (hd : domain ≠ "")
    (hlist : store.ListRecursively DesiredLRPSchemaRoot = (root, none))
    (hp1 : p1.RunsAll root.ChildNodes.length) (hp2 : p2.RunsAll root.ChildNodes.length) :
    (∀ e, ((DesiredLRPs env store p1).err = some e ∨
          (DesiredLRPsByDomain env store p2 domain).err = some e) →
        ∃ node ∈ root.ChildNodes, ∃ text, (env.FromJSON node.Value).2 = some text ∧
          e = GoError.Errorf ("cannot parse lrp JSON for key " ++ node.Key ++ ": " ++ text)) ∧
      ((∃ node ∈ root.ChildNodes, (env.FromJSON node.Value).2 ≠ none) →
        (∃ node ∈ root.ChildNodes, ∃ text, (env.FromJSON node.Value).2 = some text ∧
          (DesiredLRPs env store p1).err = some (GoError.Errorf
            ("cannot parse lrp JSON for key " ++ node.Key ++ ": " ++ text))) ∧
        (∃ node ∈ root.ChildNodes, ∃ text, (env.FromJSON node.Value).2 = some text ∧
          (DesiredLRPsByDomain env store p2 domain).err = some (GoError.Errorf
            ("cannot parse lrp JSON for key " ++ node.Key ++ ": " ++ text)))) := by
  have e1 := DesiredLRPs_err env store p1 root hlist hp1.1
  have e2 := DesiredLRPsByDomain_err env store p2 root domain hd hlist hp2.1
  constructor
  · intro e hfail
    rcases hfail with h | h
    · exact lastFailure_names_key env p1 root.ChildNodes e hp1.2 (e1 ▸ h)
    · exact lastFailure_names_key env p2 root.ChildNodes e hp2.2 (e2 ▸ h)
  · intro hbad
    obtain ⟨f1, hf1⟩ := lastFailure_scheduled_ne_none env p1 root.ChildNodes hp1.2 hbad
    obtain ⟨f2, hf2⟩ := lastFailure_scheduled_ne_none env p2 root.ChildNodes hp2.2 hbad
    obtain ⟨n1, hm1, t1, ht1, he1⟩ := lastFailure_names_key env p1 root.ChildNodes f1 hp1.2 hf1
    obtain ⟨n2, hm2, t2, ht2, he2⟩ := lastFailure_names_key env p2 root.ChildNodes f2 hp2.2 hf2
    exact ⟨⟨n1, hm1, t1, ht1, by rw [e1, hf1, he1]⟩, ⟨n2, hm2, t2, ht2, by rw [e2, hf2, he2]⟩⟩

/-- C9 at three children of which the first (key `x`) and the last (key `y`)
fail to decode: `DesiredLRPs`, run in the order 1, 2, 0, returns the error that
names `x`, and `DesiredLRPsByDomain`, run in child order, the one that names
`y`. -/
theorem decode_failure_names_key_witness :
    "prod" ≠ "" ∧
      (listingStore badChildren).ListRecursively DesiredLRPSchemaRoot =
        (StoreNode.dir DesiredLRPSchemaRoot badChildren, none) ∧
      (Throttler.mk none [1, 2, 0]).RunsAll 3 ∧ (inOrder 3).RunsAll 3 ∧
      (∃ node ∈ badChildren, (sampleEnv.FromJSON node.Value).2 ≠ none) ∧
      (∃ node ∈ badChildren, ∃ text, (sampleEnv.FromJSON node.Value).2 = some text ∧
        (DesiredLRPs sampleEnv (listingStore badChildren) ⟨none, [1, 2, 0]⟩).err =
          some (GoError.Errorf
            ("cannot parse lrp JSON for key " ++ node.Key ++ ": " ++ text))) ∧
      (∃ node ∈ badChildren, ∃ text, (sampleEnv.FromJSON node.Value).2 = some text ∧
        (DesiredLRPsByDomain sampleEnv (listingStore badChildren) (inOrder 3) "prod").err =
          some (GoError.Errorf
            ("cannot parse lrp JSON for key " ++ node.Key ++ ": " ++ text))) ∧
      (DesiredLRPs sampleEnv (listingStore badChildren) ⟨none, [1, 2, 0]⟩).err =
        some (GoError.Errorf
          "cannot parse lrp JSON for key /v1/desired/x: unexpected end of JSON input") ∧
      (DesiredLRPsByDomain sampleEnv (listingStore badChildren) (inOrder 3) "prod").err =
        some (GoError.Errorf "cannot parse lrp JSON for key /v1/desired/y: invalid character") ∧
      ∃ node ∈ badChildren, ∃ text, (sampleEnv.FromJSON node.Value).2 = some text ∧
        GoError.Errorf "cannot parse lrp JSON for key /v1/desired/y: invalid character" =
          GoError.Errorf ("cannot parse lrp JSON for key " ++ node.Key ++ ": " ++ text) :=
  have h := decode_failure_names_key sampleEnv (listingStore badChildren) ⟨none, [1, 2, 0]⟩
    (inOrder 3) (StoreNode.dir DesiredLRPSchemaRoot badChildren) "prod" (by decide) rfl
    (by decide) (by decide)
  ⟨by decide, rfl, by decide, by decide, by decide, (h.2 (by decide)).1, (h.2 (by decide)).2,
    by decide, by decide, h.1 _ (Or.inr (by decide))⟩

theorem DesiredLRPByProcessGuid_decode_error (env : Env) (store : Store) (processGuid : String)
    (node : StoreNode) (text : String) (hg : processGuid ≠ "")
    (hget : store.Get (DesiredLRPSchemaPath
      { DesiredLRP.zero with ProcessGuid := processGuid }) = (node, none))
    (hdec : (env.FromJSON node.Value).2 = some text) :
    (DesiredLRPByProcessGuid env store processGuid).err = some (GoError.decode text) ∧
      (DesiredLRPByProcessGuid env store processGuid).value = (env.FromJSON node.Value).1 := by
  have hsize : processGuid.utf8ByteSize ≠ 0 :=
    fun h => hg ((utf8ByteSize_eq_zero_iff processGuid).mp h)
  cases hv : env.FromJSON node.Value with
  | mk lrp err =>
    rw [hv] at hdec
    simp only at hdec
    subst hdec
    simp [DesiredLRPByProcessGuid, desiredLRPByProcessGuidWithIndex, hsize, hget, hv]

/-- C10 fails on the code: for the process guid `x`, stored under
`/v1/desired/x` with a payload that does not decode, `DesiredLRPByProcessGuid`
reads that key and returns the decode error of `models.FromJSON` as it is,
with no mention of the key, whereas `DesiredLRPs` over the same node returns an
error that names the key. -/
theorem DesiredLRPByProcessGuid_decode_error_lacks_key :
    (DesiredLRPByProcessGuid sampleEnv (listingStore badChildren) "x").calls =
        [StoreCall.Get "/v1/desired/x"] ∧
      (DesiredLRPByProcessGuid sampleEnv (listingStore badChildren) "x").err =
        some (GoError.decode "unexpected end of JSON input") ∧
      (DesiredLRPs sampleEnv (listingStore [StoreNode.leaf "/v1/desired/x" []]) (inOrder 1)).err =
        some (GoError.Errorf
          "cannot parse lrp JSON for key /v1/desired/x: unexpected end of JSON input") := by
  decide

theorem lastFailure_scheduled_eq_none_iff (env : Env) (pool : Throttler) (nodes : List StoreNode)
    (hperm : pool.order.Perm (List.range nodes.length)) :
    lastFailure env (scheduled pool nodes) = none ↔
      ∀ node ∈ nodes, (env.FromJSON node.Value).2 = none := by
  rw [lastFailure_eq_none_iff]
  have hp := scheduled_perm pool nodes hperm
  constructor
  · intro h node hmem
    exact (failure_eq_none_iff env node).mp (h node (hp.symm.subset hmem))
  · intro h node hmem
    exact (failure_eq_none_iff env node).mpr (h node (hp.subset hmem))

theorem DesiredLRPs_value_perm (env : Env) (store : Store) (pool : Throttler) (root : StoreNode)
    (hlist : store.ListRecursively DesiredLRPSchemaRoot = (root, none))
    (hpool : pool.RunsAll root.ChildNodes.length)
    (hdec : ∀ node ∈ root.ChildNodes, (env.FromJSON node.Value).2 = none) :
    (DesiredLRPs env store pool).value.Perm
      (root.ChildNodes.map (fun node => (env.FromJSON node.Value).1)) := by
  by_cases hnil : root.ChildNodes = []
  · rw [DesiredLRPs_no_children env store pool root hlist hnil, hnil]
    simp
  · have hperm := scheduled_perm pool root.ChildNodes hpool.2
    have hsched : ∀ node ∈ scheduled pool root.ChildNodes, (env.FromJSON node.Value).2 = none :=
      fun node hn => hdec node (hperm.subset hn)
    rw [DesiredLRPs_run env store pool root hlist hnil hpool.1,
      (lastFailure_scheduled_eq_none_iff env pool _ hpool.2).mpr hdec]
    simp only [filterMap_kept_of_decoded env _ _ hsched, List.filter_true]
    exact hperm.map _

theorem DesiredLRPsByDomain_value_perm (env : Env) (store : Store) (pool : Throttler)
    (root : StoreNode) (domain : String) (hd : domain ≠ "")
    (hlist : store.ListRecursively DesiredLRPSchemaRoot = (root, none))
    (hpool : pool.RunsAll root.ChildNodes.length)
    (hdec : ∀ node ∈ root.ChildNodes, (env.FromJSON node.Value).2 = none) :
    (DesiredLRPsByDomain env store pool domain).value.Perm
      ((root.ChildNodes.map (fun node => (env.FromJSON node.Value).1)).filter
        (fun lrp => decide (lrp.Domain = domain))) := by
  by_cases hnil : root.ChildNodes = []
  · rw [DesiredLRPsByDomain_no_children env store pool root domain hd hlist hnil, hnil]
    simp
  · have hperm := scheduled_perm pool root.ChildNodes hpool.2
    have hsched : ∀ node ∈ scheduled pool root.ChildNodes, (env.FromJSON node.Value).2 = none :=
      fun node hn => hdec node (hperm.subset hn)
    rw [DesiredLRPsByDomain_run env store pool root domain hd hlist hnil hpool.1,
      (lastFailure_scheduled_eq_none_iff env pool _ hpool.2).mpr hdec]
    simp only [filterMap_kept_of_decoded env _ _ hsched]
    exact (hperm.map _).filter _

theorem getters_of_store_error (env : Env) (store : Store) (p1 p2 : Throttler) (domain : String)
    (hd : domain ≠ "") (root : StoreNode) (e : GoError)
    (hlist : store.ListRecursively DesiredLRPSchemaRoot = (root, some e)) :
    (DesiredLRPsByDomain env store p2 domain).err = (DesiredLRPs env store p1).err ∧
      (DesiredLRPsByDomain env store p2 domain).value = [] ∧
      (DesiredLRPs env store p1).value = [] := by
  have hsize : domain.utf8ByteSize ≠ 0 := fun h => hd ((utf8ByteSize_eq_zero_iff domain).mp h)
  by_cases hk : e = GoError.ErrorKeyNotFound
  · simp [DesiredLRPsByDomain, DesiredLRPs, hlist, hsize, hk]
  · simp [DesiredLRPsByDomain, DesiredLRPs, hlist, hsize, hk]

/-- C13: for every store and every non-empty domain, with pools that run every
closure, `DesiredLRPsByDomain` fails exactly when `DesiredLRPs` fails; so one
child that does not decode makes the query fail for every domain, whether or
not any child has that domain; and when both succeed the result of
`DesiredLRPsByDomain` is a permutation of the records of `DesiredLRPs` whose
`Domain` is the domain asked for. -/
theorem DesiredLRPsByDomain_agrees (env : Env) (store : Store) (p1 p2 : Throttler)
    (domain : String) (hd : domain ≠ "")
    (hp1 : (store.ListRecursively DesiredLRPSchemaRoot).2 = none →
      p1.RunsAll (store.ListRecursively DesiredLRPSchemaRoot).1.ChildNodes.length)
    (hp2 : (store.ListRecursively DesiredLRPSchemaRoot).2 = none →
      p2.RunsAll (store.ListRecursively DesiredLRPSchemaRoot).1.ChildNodes.length) :
    ((DesiredLRPsByDomain env store p2 domain).err = none ↔
        (DesiredLRPs env store p1).err = none) ∧
      ((store.ListRecursively DesiredLRPSchemaRoot).2 = none →
        (∃ node ∈ (store.ListRecursively DesiredLRPSchemaRoot).1.ChildNodes,
          (env.FromJSON node.Value).2 ≠ none) →
        (DesiredLRPsByDomain env store p2 domain).err ≠ none) ∧
      ((DesiredLRPs env store p1).err = none →
        (DesiredLRPsByDomain env store p2 domain).err = none →
        (DesiredLRPsByDomain env store p2 domain).value.Perm
          ((DesiredLRPs env store p1).value.filter (fun lrp => decide (lrp.Domain = domain)))) := by
  cases hl : store.ListRecursively DesiredLRPSchemaRoot with
  | mk root err =>
    rw [hl] at hp1 hp2
    cases err with
    | some e =>
      obtain ⟨herr, hv2, hv1⟩ := getters_of_store_error env store p1 p2 domain hd root e hl
      refine ⟨by rw [herr], fun h => ?_, fun _ _ => ?_⟩
      · simp at h
      · rw [hv1, hv2]
        simp
    | none =>
      have h1 := hp1 rfl
      have h2 := hp2 rfl
      simp only at h1 h2
      have e1 := DesiredLRPs_err env store p1 root hl h1.1
      have e2 := DesiredLRPsByDomain_err env store p2 root domain hd hl h2.1
      have i1 := lastFailure_scheduled_eq_none_iff env p1 root.ChildNodes h1.2
      have i2 := lastFailure_scheduled_eq_none_iff env p2 root.ChildNodes h2.2
      refine ⟨?_, fun _ hbad => ?_, fun herr1 _ => ?_⟩
      · rw [e1, e2, i1, i2]
      · rw [e2]
        intro hnone
        obtain ⟨node, hmem, hfail⟩ := hbad
        exact hfail (i2.mp hnone node hmem)
      · have hdec := i1.mp (e1 ▸ herr1)
        have v1 := DesiredLRPs_value_perm env store p1 root hl h1 hdec
        have v2 := DesiredLRPsByDomain_value_perm env store p2 root domain hd hl h2 hdec
        exact v2.trans (v1.filter _).symm

/-- C13 at three children of which the first and the last fail to decode: both
getters fail, also for the domain `none-such` that no child has. -/
theorem DesiredLRPsByDomain_agrees_witness :
    "none-such" ≠ "" ∧
      (Throttler.mk none [2, 0, 1]).RunsAll 3 ∧ (inOrder 3).RunsAll 3 ∧
      ((DesiredLRPsByDomain sampleEnv (listingStore badChildren) (inOrder 3) "none-such").err
          = none ↔
        (DesiredLRPs sampleEnv (listingStore badChildren) ⟨none, [2, 0, 1]⟩).err = none) ∧
      (DesiredLRPsByDomain sampleEnv (listingStore badChildren) (inOrder 3) "none-such").err
        ≠ none :=
  have h := DesiredLRPsByDomain_agrees sampleEnv (listingStore badChildren) ⟨none, [2, 0, 1]⟩
    (inOrder 3) "none-such" (by decide) (fun _ => by decide) (fun _ => by decide)
  ⟨by decide, by decide, by decide, h.1, h.2.1 rfl (by decide)⟩

theorem compareAndSwap_keys (entries : List Entry) (key : String) (prev : Nat)
    (value : List UInt8) (swapped : List Entry)
    (h : compareAndSwap entries key prev value = some swapped) :
    swapped.map Entry.key = entries.map Entry.key := by
  unfold compareAndSwap at h
  split at h
  · simp only [Option.some.injEq] at h
    subst h
    rw [List.map_map]
    apply List.map_congr_left
    intro e _
    simp only [Function.comp]
    split <;> rfl
  · simp at h

theorem kick_keys (entries : List Entry) (key : String) :
    (kick entries key).1.map Entry.key = entries.map Entry.key := by
  unfold kick
  cases entries.find? (fun e => decide (e.key = key)) with
  | none => rfl
  | some e =>
    simp only
    cases h : compareAndSwap entries e.key e.index e.value with
    | none => rfl
    | some swapped => exact compareAndSwap_keys entries _ _ _ swapped h

theorem mem_keys_deleteKey (entries : List Entry) (key k : String) :
    k ∈ (deleteKey entries key).map Entry.key ↔ k ∈ entries.map Entry.key ∧ k ≠ key := by
  simp only [deleteKey, List.mem_map, List.mem_filter, decide_eq_true_eq]
  constructor
  · rintro ⟨e, ⟨hmem, hne⟩, rfl⟩
    exact ⟨⟨e, hmem, rfl⟩, hne⟩
  · rintro ⟨⟨e, hmem, rfl⟩, hne⟩
    exact ⟨e, ⟨hmem, hne⟩, rfl⟩

theorem hasKey_iff (entries : List Entry) (key : String) :
    hasKey entries key = true ↔ key ∈ entries.map Entry.key := by
  simp only [hasKey, List.any_eq_true, decide_eq_true_eq, List.mem_map]

theorem convergeTask_spec (out : TaskOutcome) (guid : String) :
    (convergeTask out guid).store.pending.map Entry.key = out.store.pending.map Entry.key ∧
      (∀ k,
        (k ∈ (convergeTask out guid).store.claimed.map Entry.key →
          k ∈ out.store.claimed.map Entry.key) ∧
        (k ∈ (convergeTask out guid).store.running.map Entry.key →
          k ∈ out.store.running.map Entry.key) ∧
        (k ∈ (convergeTask out guid).store.completed.map Entry.key →
          k ∈ out.store.completed.map Entry.key)) ∧
      (guid ∉ out.store.pending.map Entry.key →
        guid ∉ (convergeTask out guid).store.claimed.map Entry.key ∧
        guid ∉ (convergeTask out guid).store.running.map Entry.key ∧
        guid ∉ (convergeTask out guid).store.completed.map Entry.key) := by
  unfold convergeTask
  by_cases hp : hasKey out.store.pending guid = true
  · have hin := (hasKey_iff _ _).mp hp
    simp only [hp, if_true]
    split
    · split
      · simp only [kick_keys]
        exact ⟨trivial, fun k => ⟨id, id, id⟩, fun h => absurd hin h⟩
      · exact ⟨rfl, fun k => ⟨id, id, id⟩, fun h => absurd hin h⟩
    · simp only [kick_keys]
      exact ⟨trivial, fun k => ⟨id, id, id⟩, fun h => absurd hin h⟩
  · simp only [hp, if_false, Bool.false_eq_true, mem_keys_deleteKey]
    exact ⟨trivial, fun k => ⟨fun h => h.1, fun h => h.1, fun h => h.1⟩,
      fun _ => ⟨fun h => h.2 rfl, fun h => h.2 rfl, fun h => h.2 rfl⟩⟩

theorem foldl_convergeTask_spec (guids : List String) (out : TaskOutcome) (t : String) :
    (guids.foldl convergeTask out).store.pending.map Entry.key =
        out.store.pending.map Entry.key ∧
      ((t ∈ (guids.foldl convergeTask out).store.claimed.map Entry.key →
          t ∈ out.store.claimed.map Entry.key) ∧
        (t ∈ (guids.foldl convergeTask out).store.running.map Entry.key →
          t ∈ out.store.running.map Entry.key) ∧
        (t ∈ (guids.foldl convergeTask out).store.completed.map Entry.key →
          t ∈ out.store.completed.map Entry.key)) ∧
      (t ∉ out.store.pending.map Entry.key → t ∈ guids →
        t ∉ (guids.foldl convergeTask out).store.claimed.map Entry.key ∧
        t ∉ (guids.foldl convergeTask out).store.running.map Entry.key ∧
        t ∉ (guids.foldl convergeTask out).store.completed.map Entry.key) := by
  induction guids generalizing out with
  | nil => exact ⟨rfl, ⟨id, id, id⟩, fun _ h => absurd h (List.not_mem_nil t)⟩
  | cons g rest ih =>
    rw [List.foldl_cons]
    obtain ⟨hp, hsub, hdel⟩ := convergeTask_spec out g
    obtain ⟨ihp, ihsub, ihdel⟩ := ih (convergeTask out g)
    refine ⟨ihp.trans hp, ⟨fun h => (hsub t).1 (ihsub.1 h), fun h => (hsub t).2.1 (ihsub.2.1 h),
      fun h => (hsub t).2.2 (ihsub.2.2 h)⟩, fun hnp hmem => ?_⟩
    by_cases hr : t ∈ rest
    · exact ihdel (by rw [hp]; exact hnp) hr
    · have htg : t = g := by
        rcases List.mem_cons.mp hmem with h | h
        · exact h
        · exact absurd h hr
      subst htg
      obtain ⟨d1, d2, d3⟩ := hdel hnp
      exact ⟨fun h => d1 (ihsub.1 h), fun h => d2 (ihsub.2.1 h), fun h => d3 (ihsub.2.2 h)⟩

/-- C12: after `ConvergeTasks`, for every task guid without a pending entry
there is no claimed, no running and no completed entry: the pass deletes all of
them. -/
theorem ConvergeTasks_no_pending_no_others (store : TaskStore) (t : String)
    (hpending : ∀ e ∈ (ConvergeTasks store).store.pending, e.key ≠ t) :
    (∀ e ∈ (ConvergeTasks store).store.claimed, e.key ≠ t) ∧
      (∀ e ∈ (ConvergeTasks store).store.running, e.key ≠ t) ∧
      (∀ e ∈ (ConvergeTasks store).store.completed, e.key ≠ t) := by
  obtain ⟨hp, hsub, hdel⟩ := foldl_convergeTask_spec (observedGuids store) ⟨store, [], []⟩ t
  have hnp : t ∉ store.pending.map Entry.key := by
    intro h
    rw [← hp] at h
    obtain ⟨e, hmem, hkey⟩ := List.mem_map.mp h
    exact hpending e hmem hkey
  have key : t ∉ (ConvergeTasks store).store.claimed.map Entry.key ∧
      t ∉ (ConvergeTasks store).store.running.map Entry.key ∧
      t ∉ (ConvergeTasks store).store.completed.map Entry.key := by
    by_cases hobs : t ∈ observedGuids store
    · exact hdel hnp hobs
    · have hnone : t ∉ (store.pending ++ store.claimed ++ store.running ++
          store.completed).map Entry.key := fun h => hobs (List.mem_dedup.mpr h)
      simp only [List.map_append, List.mem_append, not_or] at hnone
      exact ⟨fun h => hnone.1.1.2 (hsub.1 h), fun h => hnone.1.2 (hsub.2.1 h),
        fun h => hnone.2 (hsub.2.2 h)⟩
  exact ⟨fun e hmem hkey => key.1 (List.mem_map.mpr ⟨e, hmem, hkey⟩),
    fun e hmem hkey => key.2.1 (List.mem_map.mpr ⟨e, hmem, hkey⟩),
    fun e hmem hkey => key.2.2 (List.mem_map.mpr ⟨e, hmem, hkey⟩)⟩

/-- C12 at a store where `some-guid` is claimed, running and completed but not
pending: after the pass the three subtrees are empty. -/
theorem ConvergeTasks_no_pending_no_others_witness :
    (∀ e ∈ (ConvergeTasks sampleTaskStore).store.pending, e.key ≠ "some-guid") ∧
      (∀ e ∈ (ConvergeTasks sampleTaskStore).store.claimed, e.key ≠ "some-guid") ∧
      (∀ e ∈ (ConvergeTasks sampleTaskStore).store.running, e.key ≠ "some-guid") ∧
      (∀ e ∈ (ConvergeTasks sampleTaskStore).store.completed, e.key ≠ "some-guid") ∧
      sampleTaskStore.claimed ≠ [] ∧ (ConvergeTasks sampleTaskStore).store.claimed = [] :=
  have h := ConvergeTasks_no_pending_no_others sampleTaskStore "some-guid" (by decide)
  ⟨by decide, h.1, h.2.1, h.2.2, by decide, by decide⟩

theorem needsKick_survivors (store : LRPStore) (lrp : DesiredLRP) :
    needsKick lrp (survivors store lrp.ProcessGuid) store.executors = true ↔
      ¬ (survivingIndices store lrp.ProcessGuid).Perm (List.range lrp.Instances) := by
  have hlive : (survivors store lrp.ProcessGuid).any
      (fun a => decide (a.ExecutorID ∉ store.executors)) = false := by
    rw [List.any_eq_false]
    intro a ha
    simp only [survivors, List.mem_filter, decide_eq_true_eq] at ha
    simp [ha.1.2]
  unfold needsKick
  rw [hlive]
  simp only [Bool.or_false, Bool.or_eq_true, decide_eq_true_eq, survivingIndices]
  constructor
  · rintro (hlen | hperm)
    · intro hp
      apply hlen
      have := hp.length_eq
      simpa using this
    · exact hperm
  · intro h
    exact Or.inr h

theorem entry_eq_of_key_eq (entries : List Entry) (hkeys : (entries.map Entry.key).Nodup)
    (a b : Entry) (ha : a ∈ entries) (hb : b ∈ entries) (h : a.key = b.key) : a = b :=
  List.inj_on_of_nodup_map hkeys ha hb h

theorem compareAndSwap_of_mem (entries : List Entry) (e : Entry) (hmem : e ∈ entries) :
    compareAndSwap entries e.key e.index e.value =
      some (entries.map (fun x =>
        if x.key = e.key then { x with value := e.value, index := x.index + 1 } else x)) := by
  unfold compareAndSwap
  have h : entries.any (fun x => decide (x.key = e.key ∧ x.index = e.index)) = true := by
    rw [List.any_eq_true]
    exact ⟨e, hmem, by simp⟩
  rw [if_pos h]

theorem foldl_kickStep_kicked (toKick : List Entry) (desired kicked : List Entry)
    (hkeys : (toKick.map Entry.key).Nodup) (hmem : ∀ e ∈ toKick, e ∈ desired) :
    (toKick.foldl kickStep (desired, kicked)).2 = kicked ++ toKick := by
  induction toKick generalizing desired kicked with
  | nil => simp
  | cons e rest ih =>
    rw [List.map_cons, List.nodup_cons] at hkeys
    rw [List.foldl_cons]
    have hcas := compareAndSwap_of_mem desired e (hmem e (List.mem_cons_self _ _))
    simp only [kickStep, hcas]
    rw [ih _ _ hkeys.2]
    · simp
    · intro x hx
      have hne : x.key ≠ e.key := fun h => hkeys.1 (h ▸ List.mem_map_of_mem Entry.key hx)
      apply List.mem_map.mpr
      exact ⟨x, hmem x (List.mem_cons_of_mem _ hx), by simp [hne]⟩

theorem drifting_sublist (env : Env) (store : LRPStore) :
    (drifting env store).Sublist store.desired :=
  List.filter_sublist _

theorem drifting_keys_nodup (env : Env) (store : LRPStore)
    (hkeys : (store.desired.map Entry.key).Nodup) :
    ((drifting env store).map Entry.key).Nodup :=
  List.Nodup.sublist ((drifting_sublist env store).map Entry.key) hkeys

theorem mem_pruned_of_decodes (env : Env) (store : LRPStore)
    (hkeys : (store.desired.map Entry.key).Nodup) (e : Entry) (hmem : e ∈ store.desired)
    (hdec : decodes env e = true) :
    e ∈ store.desired.filter (fun x =>
      decide (x.key ∉ (store.desired.filter (fun y => !decodes env y)).map Entry.key)) := by
  rw [List.mem_filter]
  refine ⟨hmem, ?_⟩
  rw [decide_eq_true_eq]
  intro hin
  obtain ⟨m, hm, hkey⟩ := List.mem_map.mp hin
  rw [List.mem_filter] at hm
  have heq := entry_eq_of_key_eq store.desired hkeys m e hm.1 hmem hkey
  rw [heq, hdec] at hm
  simp at hm

theorem ConvergeLRPs_kicked (env : Env) (store : LRPStore) (metrics : Metrics)
    (hkeys : (store.desired.map Entry.key).Nodup) :
    (ConvergeLRPs env store metrics).kicked = drifting env store := by
  unfold ConvergeLRPs
  simp only
  rw [foldl_kickStep_kicked _ _ _ (drifting_keys_nodup env store hkeys)]
  · simp
  · intro e he
    have hd := List.mem_filter.mp he
    simp only [Bool.and_eq_true] at hd
    exact mem_pruned_of_decodes env store hkeys e hd.1 hd.2.1

theorem mem_drifting_iff (env : Env) (store : LRPStore) (e : Entry) (lrp : DesiredLRP)
    (hmem : e ∈ store.desired) (hdec : env.FromJSON e.value = (lrp, none)) :
    e ∈ drifting env store ↔
      ¬ (survivingIndices store lrp.ProcessGuid).Perm (List.range lrp.Instances) := by
  unfold drifting
  rw [List.mem_filter, Bool.and_eq_true]
  have hd : decodes env e = true := by simp [decodes, hdec]
  rw [hdec, needsKick_survivors]
  exact ⟨fun h => h.2.2, fun h => ⟨hmem, hd, h⟩⟩

theorem kick_change_mem (env : Env) (store : LRPStore) (metrics : Metrics) (e : Entry)
    (lrp : DesiredLRP) (hdec : env.FromJSON e.value = (lrp, none))
    (hk : e ∈ (ConvergeLRPs env store metrics).kicked) :
    (⟨some lrp, some lrp⟩ : DesiredLRPChange) ∈ (ConvergeLRPs env store metrics).changes := by
  have hc : toChange env (some e.value) (some e.value) = ⟨some lrp, some lrp⟩ := by
    simp [toChange, decodeSide, hdec]
  rw [← hc]
  unfold ConvergeLRPs
  simp only [List.mem_append]
  exact Or.inr (List.mem_map_of_mem _ hk)

theorem compareAndSwap_identity (entries : List Entry)
    (hkeys : (entries.map Entry.key).Nodup) (e : Entry) (hmem : e ∈ entries) :
    compareAndSwap entries e.key e.index e.value =
      some (entries.map (fun x =>
        if x.key = e.key then { x with index := x.index + 1 } else x)) := by
  rw [compareAndSwap_of_mem entries e hmem]
  congr 1
  apply List.map_congr_left
  intro x hx
  by_cases hk : x.key = e.key
  · have hxe := entry_eq_of_key_eq entries hkeys x e hx hmem hk
    subst hxe
    simp
  · simp [hk]

theorem foldl_kickStep_store (toKick : List Entry) (desired kicked : List Entry)
    (hkeys : (toKick.map Entry.key).Nodup) (hdesired : (desired.map Entry.key).Nodup)
    (hmem : ∀ e ∈ toKick, e ∈ desired) :
    (toKick.foldl kickStep (desired, kicked)).1 =
      desired.map (fun x =>
        if x.key ∈ toKick.map Entry.key then { x with index := x.index + 1 } else x) := by
  induction toKick generalizing desired kicked with
  | nil => simp
  | cons e rest ih =>
    rw [List.map_cons, List.nodup_cons] at hkeys
    rw [List.foldl_cons]
    have hcas := compareAndSwap_identity desired hdesired e (hmem e (List.mem_cons_self _ _))
    simp only [kickStep, hcas]
    have hkeep : (desired.map (fun x =>
        if x.key = e.key then { x with index := x.index + 1 } else x)).map Entry.key =
        desired.map Entry.key := by
      rw [List.map_map]
      apply List.map_congr_left
      intro x _
      simp only [Function.comp]
      split <;> rfl
    rw [ih _ _ hkeys.2 (by rw [hkeep]; exact hdesired)]
    · rw [List.map_map]
      apply List.map_congr_left
      intro x _
      simp only [Function.comp, List.map_cons, List.mem_cons]
      by_cases hk : x.key = e.key
      · have hnot : e.key ∉ rest.map Entry.key := hkeys.1
        simp [hk, hnot]
      · simp [hk]
    · intro x hx
      have hne : x.key ≠ e.key := fun h => hkeys.1 (h ▸ List.mem_map_of_mem Entry.key hx)
      apply List.mem_map.mpr
      exact ⟨x, hmem x (List.mem_cons_of_mem _ hx), by simp [hne]⟩

theorem pruned_keys_nodup (env : Env) (store : LRPStore)
    (hkeys : (store.desired.map Entry.key).Nodup) :
    ((store.desired.filter (fun x =>
      decide (x.key ∉ (store.desired.filter (fun y => !decodes env y)).map Entry.key))).map
        Entry.key).Nodup :=
  List.Nodup.sublist ((List.filter_sublist _).map Entry.key) hkeys

theorem ConvergeLRPs_desired (env : Env) (store : LRPStore) (metrics : Metrics)
    (hkeys : (store.desired.map Entry.key).Nodup) :
    (ConvergeLRPs env store metrics).store.desired =
      (store.desired.filter (fun x =>
        decide (x.key ∉ (store.desired.filter (fun y => !decodes env y)).map Entry.key))).map
        (fun x => if x.key ∈ (drifting env store).map Entry.key
          then { x with index := x.index + 1 } else x) := by
  unfold ConvergeLRPs
  simp only
  rw [foldl_kickStep_store _ _ _ (drifting_keys_nodup env store hkeys)
    (pruned_keys_nodup env store hkeys)]
  intro e he
  have hd := List.mem_filter.mp he
  simp only [Bool.and_eq_true] at hd
  exact mem_pruned_of_decodes env store hkeys e hd.1 hd.2.1

theorem key_mem_drifting_iff (env : Env) (store : LRPStore)
    (hkeys : (store.desired.map Entry.key).Nodup) (e : Entry) (hmem : e ∈ store.desired) :
    e.key ∈ (drifting env store).map Entry.key ↔ e ∈ drifting env store := by
  constructor
  · intro h
    obtain ⟨x, hx, hk⟩ := List.mem_map.mp h
    have hxe := entry_eq_of_key_eq store.desired hkeys x e
      ((drifting_sublist env store).subset hx) hmem hk
    exact hxe ▸ hx
  · intro h
    exact List.mem_map_of_mem Entry.key h

theorem ConvergeLRPs_entry_after (env : Env) (store : LRPStore) (metrics : Metrics)
    (hkeys : (store.desired.map Entry.key).Nodup) (e : Entry) (hmem : e ∈ store.desired)
    (hdec : decodes env e = true) :
    (if e ∈ drifting env store then ({ e with index := e.index + 1 } : Entry) else e) ∈
        (ConvergeLRPs env store metrics).store.desired ∧
      ∀ x ∈ (ConvergeLRPs env store metrics).store.desired, x.key = e.key →
        x = if e ∈ drifting env store then ({ e with index := e.index + 1 } : Entry) else e := by
  rw [ConvergeLRPs_desired env store metrics hkeys]
  have hpr := mem_pruned_of_decodes env store hkeys e hmem hdec
  have hiff := key_mem_drifting_iff env store hkeys e hmem
  constructor
  · apply List.mem_map.mpr
    refine ⟨e, hpr, ?_⟩
    by_cases hd : e ∈ drifting env store
    · simp only [if_pos hd, if_pos (hiff.mpr hd)]
    · simp only [if_neg hd, if_neg (fun h => hd (hiff.mp h))]
  · intro x hx hk
    obtain ⟨y, hy, hyx⟩ := List.mem_map.mp hx
    have hykey : y.key = e.key := by
      rw [← hk, ← hyx]
      split <;> rfl
    have hye := entry_eq_of_key_eq store.desired hkeys y e (List.mem_filter.mp hy).1 hmem hykey
    subst hye
    rw [← hyx]
    by_cases hd : y ∈ drifting env store
    · simp only [if_pos hd, if_pos (hiff.mpr hd)]
    · simp only [if_neg hd, if_neg (fun h => hd (hiff.mp h))]

theorem decodeSide_eq_some_iff (env : Env) (payload : List UInt8) (lrp : DesiredLRP) :
    decodeSide env (some payload) = some lrp ↔ env.FromJSON payload = (lrp, none) := by
  unfold decodeSide
  cases h : env.FromJSON payload with
  | mk l err =>
    cases err with
    | none => simp [h]
    | some text => simp [h]

theorem countP_changes (env : Env) (store : LRPStore) (metrics : Metrics) (lrp : DesiredLRP) :
    (ConvergeLRPs env store metrics).changes.countP (fun c => decide (c.After = some lrp)) =
      (ConvergeLRPs env store metrics).kicked.countP
        (fun k => decide (env.FromJSON k.value = (lrp, none))) := by
  have hc : (ConvergeLRPs env store metrics).changes =
      (store.desired.filter (fun e => !decodes env e)).map
          (fun e => toChange env (some e.value) none) ++
        (ConvergeLRPs env store metrics).kicked.map
          (fun e => toChange env (some e.value) (some e.value)) := rfl
  rw [hc, List.countP_append, List.countP_map, List.countP_map]
  have hzero : (store.desired.filter (fun e => !decodes env e)).countP
      ((fun c : DesiredLRPChange => decide (c.After = some lrp)) ∘
        (fun e => toChange env (some e.value) none)) = 0 := by
    rw [List.countP_eq_zero]
    intro x _
    simp [toChange, decodeSide]
  rw [hzero, Nat.zero_add]
  apply List.countP_congr
  intro k _
  simp only [Function.comp, toChange, decide_eq_true_eq]
  exact (decodeSide_eq_some_iff env k.value lrp)

theorem countP_kicked_of_unique (env : Env) (store : LRPStore) (metrics : Metrics) (e : Entry)
    (lrp : DesiredLRP) (hkeys : (store.desired.map Entry.key).Nodup)
    (hdec : env.FromJSON e.value = (lrp, none))
    (hone : ∀ x ∈ store.desired, env.FromJSON x.value = (lrp, none) → x = e) :
    (ConvergeLRPs env store metrics).kicked.countP
        (fun k => decide (env.FromJSON k.value = (lrp, none))) =
      (ConvergeLRPs env store metrics).kicked.count e := by
  rw [List.count, ConvergeLRPs_kicked env store metrics hkeys]
  apply List.countP_congr
  intro k hk
  simp only [decide_eq_true_eq, beq_iff_eq]
  constructor
  · intro h
    exact hone k ((drifting_sublist env store).subset hk) h
  · intro h
    rw [h]
    exact hdec

/-- C11: in a pass of `ConvergeLRPs` over a store with one entry per key, a
desired LRP that decodes, with `instances = N`, is kicked if and only if the
indices of its surviving actuals are not exactly `0, ..., N-1`, each once. A
kick is an identity compare-and-swap: afterwards the key holds the same payload
at the next version, a subscriber receives a change whose two sides are the
desired LRP, and `convergence-compare-and-swap-lrp` counts it once. Without a
kick the key holds the entry as it was, and, the LRP being held under this key
only, the subscriber receives exactly one change with it as `After` when it is
kicked and none when it is not. So the LRP is kicked when an index below `N` is
missing, when there are more actuals than `N`, and when an index is occupied
twice; it is not kicked when the actuals match exactly. -/
theorem ConvergeLRPs_kick_iff (env : Env) (store : LRPStore) (metrics : Metrics) (e : Entry)
    (lrp : DesiredLRP) (hkeys : (store.desired.map Entry.key).Nodup)
    (hmem : e ∈ store.desired) (hdec : env.FromJSON e.value = (lrp, none)) :
    (e ∈ (ConvergeLRPs env store metrics).kicked ↔
        ¬ (survivingIndices store lrp.ProcessGuid).Perm (List.range lrp.Instances)) ∧
      (e ∈ (ConvergeLRPs env store metrics).kicked →
        (∃ change ∈ (ConvergeLRPs env store metrics).changes,
          change.After = some lrp ∧ change.Before = some lrp) ∧
        (ConvergeLRPs env store metrics).kicked.count e = 1) ∧
      (ConvergeLRPs env store metrics).metrics.compareAndSwapLRP =
        metrics.compareAndSwapLRP + (ConvergeLRPs env store metrics).kicked.length ∧
      survivingIndices store lrp.ProcessGuid =
        (((ConvergeLRPs env store metrics).store.actual.filter
          (fun a => decide (a.ProcessGuid = lrp.ProcessGuid))).map (fun a => a.Index)) ∧
      ((∃ i, i < lrp.Instances ∧ i ∉ survivingIndices store lrp.ProcessGuid) →
        e ∈ (ConvergeLRPs env store metrics).kicked) ∧
      (lrp.Instances < (survivingIndices store lrp.ProcessGuid).length →
        e ∈ (ConvergeLRPs env store metrics).kicked) ∧
      (¬ (survivingIndices store lrp.ProcessGuid).Nodup →
        e ∈ (ConvergeLRPs env store metrics).kicked) ∧
      ((survivingIndices store lrp.ProcessGuid).Perm (List.range lrp.Instances) →
        e ∉ (ConvergeLRPs env store metrics).kicked) ∧
      (e ∈ (ConvergeLRPs env store metrics).kicked →
        (⟨e.key, e.value, e.index + 1⟩ : Entry) ∈
            (ConvergeLRPs env store metrics).store.desired ∧
          ∀ x ∈ (ConvergeLRPs env store metrics).store.desired, x.key = e.key →
            x = ⟨e.key, e.value, e.index + 1⟩) ∧
      (e ∉ (ConvergeLRPs env store metrics).kicked →
        e ∈ (ConvergeLRPs env store metrics).store.desired ∧
          ∀ x ∈ (ConvergeLRPs env store metrics).store.desired, x.key = e.key → x = e) ∧
      (∀ change ∈ (ConvergeLRPs env store metrics).changes, change.After = some lrp →
        ∃ k ∈ (ConvergeLRPs env store metrics).kicked, env.FromJSON k.value = (lrp, none)) ∧
      ((∀ x ∈ store.desired, env.FromJSON x.value = (lrp, none) → x = e) →
        (e ∈ (ConvergeLRPs env store metrics).kicked →
          (ConvergeLRPs env store metrics).changes.countP
            (fun c => decide (c.After = some lrp)) = 1) ∧
        (e ∉ (ConvergeLRPs env store metrics).kicked →
          ∀ change ∈ (ConvergeLRPs env store metrics).changes, change.After ≠ some lrp)) := by
  have hkicked := ConvergeLRPs_kicked env store metrics hkeys
  have hiff : e ∈ (ConvergeLRPs env store metrics).kicked ↔
      ¬ (survivingIndices store lrp.ProcessGuid).Perm (List.range lrp.Instances) := by
    rw [hkicked]
    exact mem_drifting_iff env store e lrp hmem hdec
  have hnodup : (ConvergeLRPs env store metrics).kicked.Nodup := by
    rw [hkicked]
    exact List.Nodup.of_map Entry.key (drifting_keys_nodup env store hkeys)
  have hd : decodes env e = true := by simp [decodes, hdec]
  have hafter := ConvergeLRPs_entry_after env store metrics hkeys e hmem hd
  have hcount := countP_changes env store metrics lrp
  refine ⟨hiff, fun hk => ⟨?_, ?_⟩, rfl, rfl, ?_, ?_, ?_, ?_, ?_, ?_, ?_, ?_⟩
  · exact ⟨_, kick_change_mem env store metrics e lrp hdec hk, rfl, rfl⟩
  · exact List.count_eq_one_of_mem hnodup hk
  · rintro ⟨i, hlt, hnot⟩
    apply hiff.mpr
    intro hp
    exact hnot (hp.symm.subset (List.mem_range.mpr hlt))
  · intro hlt
    apply hiff.mpr
    intro hp
    have := hp.length_eq
    rw [List.length_range] at this
    omega
  · intro hdup
    apply hiff.mpr
    intro hp
    exact hdup ((hp.nodup_iff).mpr (List.nodup_range _))
  · intro hp hk
    exact hiff.mp hk hp
  · intro hk
    rw [hkicked] at hk
    rw [if_pos hk] at hafter
    exact hafter
  · intro hk
    rw [hkicked] at hk
    rw [if_neg hk] at hafter
    exact hafter
  · intro change hc ha
    have hpos : 0 < (ConvergeLRPs env store metrics).changes.countP
        (fun c => decide (c.After = some lrp)) :=
      List.countP_pos_iff.mpr ⟨change, hc, by simpa using ha⟩
    rw [hcount] at hpos
    obtain ⟨k, hk, hkd⟩ := List.countP_pos_iff.mp hpos
    exact ⟨k, hk, by simpa using hkd⟩
  · intro hone
    have hce := countP_kicked_of_unique env store metrics e lrp hkeys hdec hone
    constructor
    · intro hk
      rw [hcount, hce]
      exact List.count_eq_one_of_mem hnodup hk
    · intro hk change hc ha
      have hpos : 0 < (ConvergeLRPs env store metrics).changes.countP
          (fun c => decide (c.After = some lrp)) :=
        List.countP_pos_iff.mpr ⟨change, hc, by simpa using ha⟩
      rw [hcount, hce] at hpos
      exact hk (List.count_pos_iff.mp hpos)

/-- C11 at the store of the tests. With three instances desired and actuals at
the indices 0 and 1 only, the desired LRP is kicked: its key holds the same
payload at the next version, one change carries it and the counter is 1. With
two instances desired the actuals match: the entry is left as it was and no
change carries the desired LRP. -/
theorem ConvergeLRPs_kick_iff_witness :
    ((sampleLRPStore 3 twoActuals).desired.map Entry.key).Nodup ∧
      sampleDesired 3 ∈ (sampleLRPStore 3 twoActuals).desired ∧
      sampleEnv.FromJSON (sampleDesired 3).value =
        ((sampleEnv.FromJSON (sampleDesired 3).value).1, none) ∧
      (∃ i, i < 3 ∧ i ∉ survivingIndices (sampleLRPStore 3 twoActuals) "pg") ∧
      sampleDesired 3 ∈ (ConvergeLRPs sampleEnv (sampleLRPStore 3 twoActuals) noMetrics).kicked ∧
      (ConvergeLRPs sampleEnv (sampleLRPStore 3 twoActuals) noMetrics).metrics.compareAndSwapLRP
        = 1 ∧
      (⟨"/v1/desired/pg", [0, 3], 5⟩ : Entry) ∈
        (ConvergeLRPs sampleEnv (sampleLRPStore 3 twoActuals) noMetrics).store.desired ∧
      (ConvergeLRPs sampleEnv (sampleLRPStore 3 twoActuals) noMetrics).changes.countP
        (fun c => decide (c.After = some (sampleEnv.FromJSON (sampleDesired 3).value).1)) = 1 ∧
      (survivingIndices (sampleLRPStore 2 twoActuals) "pg").Perm (List.range 2) ∧
      sampleDesired 2 ∉ (ConvergeLRPs sampleEnv (sampleLRPStore 2 twoActuals) noMetrics).kicked ∧
      sampleDesired 2 ∈
        (ConvergeLRPs sampleEnv (sampleLRPStore 2 twoActuals) noMetrics).store.desired ∧
      (∀ change ∈ (ConvergeLRPs sampleEnv (sampleLRPStore 2 twoActuals) noMetrics).changes,
        change.After ≠ some (sampleEnv.FromJSON (sampleDesired 2).value).1) :=
  have h3 := ConvergeLRPs_kick_iff sampleEnv (sampleLRPStore 3 twoActuals) noMetrics
    (sampleDesired 3) (sampleEnv.FromJSON (sampleDesired 3).value).1 (by decide) (by decide) rfl
  have h2 := ConvergeLRPs_kick_iff sampleEnv (sampleLRPStore 2 twoActuals) noMetrics
    (sampleDesired 2) (sampleEnv.FromJSON (sampleDesired 2).value).1 (by decide) (by decide) rfl
  have k3 := h3.2.2.2.2.1 ⟨2, by decide, by decide⟩
  have k2 := h2.2.2.2.2.2.2.2.1 (by decide)
  ⟨by decide, by decide, rfl, ⟨2, by decide, by decide⟩, k3, by decide,
    (h3.2.2.2.2.2.2.2.2.1 k3).1, (h3.2.2.2.2.2.2.2.2.2.2.2 (by decide)).1 k3,
    by decide, k2, (h2.2.2.2.2.2.2.2.2.2.1 k2).1,
    (h2.2.2.2.2.2.2.2.2.2.2.2 (by decide)).2 k2⟩

end LrpBbs
